import Mathlib

/-!
Verification of the bytebot zero-copy shared-memory bridge core.

Shallow embedding, in Lean 4, of the parts of the repository that the
checked claims are about:

* `docker/apple-silicon-m4/shared-memory-bridge.py` — the M4 bridge's
  segment write/read with a JSON header and a truncated-SHA-256 checksum;
* `ane-bridge/shared_memory_bridge.py` — segment allocation with the
  staleness sweep, the per-request zero-copy state machine, cleanup and
  metrics;
* `ane-bridge/batch_optimizer.py` — priority partitioning, chunking,
  similarity grouping and adaptive batch sizing;
* `ane-bridge/ane_resource_monitor.py` — the throttle decision;
* `ane-bridge/cache_predictor.py` — ensemble merging of cache predictions.

Python byte strings are modelled as `List Nat`, Python floats as `ℚ`
(no rounding is relevant to any checked property), Python dicts keyed by
strings as insertion-ordered association lists, and machine-independent
nondeterminism (clock readings, the outcome of a cross-process wait) as
explicit parameters.
-/

namespace Bytebot

/-! ## Bytes, strings, hex and little-endian lengths -/

/-- The UTF-8 bytes of a string; all strings that reach the wire in the
modelled code (ISO timestamps, hex checksums, compact JSON) are ASCII, for
which the byte sequence is the sequence of code points. -/
def strBytes (s : String) : List Nat :=
  s.data.map Char.toNat

/-- Rebuild a string from code points (left inverse of `strBytes`). -/
def bytesToStr (bs : List Nat) : String :=
  String.mk (bs.map Char.ofNat)

/-- `struct.pack("<I", n)`: four little-endian bytes. -/
def packLE4 (n : Nat) : List Nat :=
  [n % 256, n / 256 % 256, n / 256 ^ 2 % 256, n / 256 ^ 3 % 256]

/-- `struct.unpack("<I", bs)[0]` on a four-byte list. -/
def unpackLE4 (bs : List Nat) : Nat :=
  match bs with
  | [a, b, c, d] => a + 256 * b + 256 ^ 2 * c + 256 ^ 3 * d
  | _ => 0

theorem unpackLE4_packLE4 (n : Nat) (h : n < 2 ^ 32) : unpackLE4 (packLE4 n) = n := by
  simp only [packLE4, unpackLE4]
  omega

theorem packLE4_length (n : Nat) : (packLE4 n).length = 4 := rfl

/-- The lower-case hex digit for a nibble, as CPython's `hexdigest` prints it. -/
def hexDigitChar (n : Nat) : Char :=
  if n < 10 then Char.ofNat (48 + n) else Char.ofNat (87 + n)

/-- Two lower-case hex digits of one byte. -/
def byteToHexChars (b : Nat) : List Char :=
  [hexDigitChar (b / 16 % 16), hexDigitChar (b % 16)]

/-! ## SHA-256 (`hashlib.sha256`), over byte lists -/

/-- Truncate to a 32-bit word. -/
def w32 (n : Nat) : Nat := n % 2 ^ 32

/-- 32-bit right rotation. -/
def rotr32 (x n : Nat) : Nat :=
  w32 ((x >>> n) ||| (x <<< (32 - n)))

/-- The 64 SHA-256 round constants. -/
def shaK : List Nat :=
  [
    0x428A2F98, 0x71374491, 0xB5C0FBCF, 0xE9B5DBA5,
    0x3956C25B, 0x59F111F1, 0x923F82A4, 0xAB1C5ED5,
    0xD807AA98, 0x12835B01, 0x243185BE, 0x550C7DC3,
    0x72BE5D74, 0x80DEB1FE, 0x9BDC06A7, 0xC19BF174,
    0xE49B69C1, 0xEFBE4786, 0x0FC19DC6, 0x240CA1CC,
    0x2DE92C6F, 0x4A7484AA, 0x5CB0A9DC, 0x76F988DA,
    0x983E5152, 0xA831C66D, 0xB00327C8, 0xBF597FC7,
    0xC6E00BF3, 0xD5A79147, 0x06CA6351, 0x14292967,
    0x27B70A85, 0x2E1B2138, 0x4D2C6DFC, 0x53380D13,
    0x650A7354, 0x766A0ABB, 0x81C2C92E, 0x92722C85,
    0xA2BFE8A1, 0xA81A664B, 0xC24B8B70, 0xC76C51A3,
    0xD192E819, 0xD6990624, 0xF40E3585, 0x106AA070,
    0x19A4C116, 0x1E376C08, 0x2748774C, 0x34B0BCB5,
    0x391C0CB3, 0x4ED8AA4A, 0x5B9CCA4F, 0x682E6FF3,
    0x748F82EE, 0x78A5636F, 0x84C87814, 0x8CC70208,
    0x90BEFFFA, 0xA4506CEB, 0xBEF9A3F7, 0xC67178F2]

/-- The initial SHA-256 hash state. -/
def shaH0 : List Nat :=
  [0x6A09E667, 0xBB67AE85,
   0x3C6EF372, 0xA54FF53A,
   0x510E527F, 0x9B05688C,
   0x1F83D9AB, 0x5BE0CD19]

/-- Pad a message to a multiple of 64 bytes: `0x80`, zeros, then the
bit length as eight big-endian bytes. -/
def shaPad (msg : List Nat) : List Nat :=
  let l := msg.length
  let zeros := (64 - (l + 9) % 64) % 64
  let bitLen := 8 * l
  msg ++ [0x80] ++ List.replicate zeros 0 ++
    [bitLen / 256 ^ 7 % 256, bitLen / 256 ^ 6 % 256, bitLen / 256 ^ 5 % 256,
     bitLen / 256 ^ 4 % 256, bitLen / 256 ^ 3 % 256, bitLen / 256 ^ 2 % 256,
     bitLen / 256 % 256, bitLen % 256]

/-- Big-endian 32-bit words of a 64-byte block. -/
def blockWords : List Nat → List Nat
  | a :: b :: c :: d :: rest =>
      (w32 (a * 256 ^ 3 + b * 256 ^ 2 + c * 256 + d)) :: blockWords rest
  | _ => []

/-- Append `fuel` extended schedule words to `ws`. -/
def shaExtend : Nat → List Nat → List Nat
  | 0, ws => ws
  | fuel + 1, ws =>
      let i := ws.length
      let w15 := ws.getD (i - 15) 0
      let w2 := ws.getD (i - 2) 0
      let w16 := ws.getD (i - 16) 0
      let w7 := ws.getD (i - 7) 0
      let s0 := (rotr32 w15 7) ^^^ (rotr32 w15 18) ^^^ (w15 >>> 3)
      let s1 := (rotr32 w2 17) ^^^ (rotr32 w2 19) ^^^ (w2 >>> 10)
      shaExtend fuel (ws ++ [w32 (w16 + s0 + w7 + s1)])

/-- One round of the SHA-256 compression function on `[a,b,c,d,e,f,g,h]`. -/
def shaRound (st : List Nat) (k wi : Nat) : List Nat :=
  match st with
  | [a, b, c, d, e, f, g, h] =>
      let S1 := (rotr32 e 6) ^^^ (rotr32 e 11) ^^^ (rotr32 e 25)
      let ch := (e &&& f) ^^^ ((2 ^ 32 - 1 - e) &&& g)
      let temp1 := w32 (h + S1 + ch + k + wi)
      let S0 := (rotr32 a 2) ^^^ (rotr32 a 13) ^^^ (rotr32 a 22)
      let maj := (a &&& b) ^^^ (a &&& c) ^^^ (b &&& c)
      let temp2 := w32 (S0 + maj)
      [w32 (temp1 + temp2), a, b, c, w32 (d + temp1), e, f, g]
  | _ => st

/-- Compress one 64-byte block into the running hash state. -/
def shaCompress (hs : List Nat) (block : List Nat) : List Nat :=
  let ws := shaExtend 48 (blockWords block)
  let st := (List.zip shaK ws).foldl (fun s kw => shaRound s kw.1 kw.2) hs
  (List.zip hs st).map (fun p => w32 (p.1 + p.2))

/-- Split a padded message into 64-byte blocks, with enough fuel. -/
def chunk64 : Nat → List Nat → List (List Nat)
  | 0, _ => []
  | fuel + 1, l => if l = [] then [] else l.take 64 :: chunk64 fuel (l.drop 64)

/-- SHA-256 digest (32 bytes) of a byte list. -/
def sha256 (msg : List Nat) : List Nat :=
  let padded := shaPad msg
  let hs := (chunk64 padded.length padded).foldl shaCompress shaH0
  hs.flatMap (fun h =>
    [h / 256 ^ 3 % 256, h / 256 ^ 2 % 256, h / 256 % 256, h % 256])

/-- `hashlib.sha256(data).hexdigest()[:16]`: the first sixteen hex
characters of the digest, i.e. the hex of its first eight bytes. -/
def checksumHex (msg : List Nat) : String :=
  String.mk (((sha256 msg).take 8).flatMap byteToHexChars)

/-! ## Association lists with Python-dict semantics

Insertion-ordered maps: assigning to an existing key replaces its value in
place, assigning to a fresh key appends, `del` removes the binding. -/

/-- `d[k] = v` on an insertion-ordered map. -/
def alistInsert {α : Type} (k : String) (v : α) : List (String × α) → List (String × α)
  | [] => [(k, v)]
  | (k', v') :: rest =>
      if k' = k then (k, v) :: rest else (k', v') :: alistInsert k v rest

/-- `del d[k]` (first binding only; keys are unique in every reachable state). -/
def alistRemove {α : Type} (k : String) : List (String × α) → List (String × α)
  | [] => []
  | (k', v') :: rest => if k' = k then rest else (k', v') :: alistRemove k rest

/-- `d.get(k)` / `d[k]`. -/
def alistFind {α : Type} (k : String) : List (String × α) → Option α
  | [] => none
  | (k', v') :: rest => if k' = k then some v' else alistFind k rest

theorem alistFind_insert_self {α : Type} (k : String) (v : α) (l : List (String × α)) :
    alistFind k (alistInsert k v l) = some v := by
  induction l with
  | nil => simp [alistInsert, alistFind]
  | cons p rest ih =>
      by_cases h : p.1 = k <;> simp [alistInsert, alistFind, h, ih]

theorem alistFind_insert_ne {α : Type} (k k' : String) (v : α) (l : List (String × α))
    (h : k' ≠ k) : alistFind k' (alistInsert k v l) = alistFind k' l := by
  induction l with
  | nil => simp [alistInsert, alistFind, Ne.symm h]
  | cons p rest ih =>
      by_cases hp : p.1 = k
      · subst hp
        simp [alistInsert, alistFind, Ne.symm h]
      · by_cases hq : p.1 = k' <;> simp [alistInsert, alistFind, hp, hq, ih, h]

theorem alistFind_eq_none {α : Type} (k : String) (l : List (String × α))
    (h : k ∉ l.map Prod.fst) : alistFind k l = none := by
  induction l with
  | nil => rfl
  | cons p rest ih =>
      simp only [List.map_cons, List.mem_cons, not_or] at h
      simp [alistFind, Ne.symm h.1, ih h.2]

theorem alistFind_remove_self {α : Type} (k : String) (l : List (String × α))
    (hnd : (l.map Prod.fst).Nodup) : alistFind k (alistRemove k l) = none := by
  induction l with
  | nil => rfl
  | cons p rest ih =>
      simp only [List.map_cons, List.nodup_cons] at hnd
      by_cases h : p.1 = k
      · subst h
        simp only [alistRemove, if_pos rfl]
        exact alistFind_eq_none p.1 rest hnd.1
      · simp only [alistRemove, if_neg h, alistFind, if_neg h]
        exact ih hnd.2

theorem alistFind_remove_ne {α : Type} (k k' : String) (l : List (String × α))
    (h : k' ≠ k) : alistFind k' (alistRemove k l) = alistFind k' l := by
  induction l with
  | nil => rfl
  | cons p rest ih =>
      by_cases hp : p.1 = k
      · subst hp
        simp [alistRemove, alistFind, Ne.symm h]
      · by_cases hq : p.1 = k' <;> simp [alistRemove, alistFind, hp, hq, ih, h]


/-! ## The M4 bridge's segment header

`write_image_data` serializes
`{"timestamp": ..., "size": ..., "checksum": ..., "metadata": {...}}`
with `json.dumps` (CPython default separators, insertion order). The
`metadata` dict is modelled by its JSON serialization, an opaque string.
The parser below accepts exactly the canonical text the printer emits,
which is the only header text `read_image_data` ever sees in the modelled
flows (`json.loads` failing on anything else maps to the same `none`). -/

structure ImageHeader where
  timestamp : String
  size : Nat
  checksum : String
  metadata : String
deriving DecidableEq

/-- Little-endian base-10 digits, by structural (fuel) recursion so that the
kernel can evaluate it; `natDigits_eq_digits` identifies it with
`Nat.digits 10`. -/
def natDigitsAux : Nat → Nat → List Nat
  | 0, _ => []
  | _ + 1, 0 => []
  | fuel + 1, n + 1 => (n + 1) % 10 :: natDigitsAux fuel ((n + 1) / 10)

def natDigits (n : Nat) : List Nat := natDigitsAux n n

theorem natDigitsAux_eq_digits (fuel n : Nat) (h : n ≤ fuel) :
    natDigitsAux fuel n = Nat.digits 10 n := by
  induction fuel generalizing n with
  | zero =>
      interval_cases n
      simp [natDigitsAux]
  | succ f ih =>
      cases n with
      | zero => simp [natDigitsAux]
      | succ m =>
          rw [show natDigitsAux (f + 1) (m + 1) =
              (m + 1) % 10 :: natDigitsAux f ((m + 1) / 10) from rfl,
            ih _ (by omega), Nat.digits_def' (by norm_num) (Nat.succ_pos m)]

theorem natDigits_eq_digits (n : Nat) : natDigits n = Nat.digits 10 n :=
  natDigitsAux_eq_digits n n le_rfl

/-- `str(n)` for a natural number. -/
def natRepr (n : Nat) : List Char :=
  if n = 0 then ['0'] else (natDigits n).reverse.map (fun d => Char.ofNat (48 + d))

/-- `json.dumps(header_data)` with CPython's default separators. -/
def headerJson (h : ImageHeader) : String :=
  "\x7b\"timestamp\": \"" ++ h.timestamp ++ "\"" ++ ", \"size\": " ++
    String.mk (natRepr h.size) ++ ", \"checksum\": \"" ++ h.checksum ++
    "\"" ++ ", \"metadata\": " ++ h.metadata ++ "\x7d"

/-- Consume an expected literal, or fail. -/
def expectLit (lit : String) (bs : List Nat) : Option (List Nat) :=
  if (strBytes lit).isPrefixOf bs then some (bs.drop (strBytes lit).length) else none

/-- Consume a JSON string body up to its closing quote (byte 34). -/
def parseStringField (bs : List Nat) : Option (String × List Nat) :=
  match bs.dropWhile (· ≠ 34) with
  | 34 :: rest => some (bytesToStr (bs.takeWhile (· ≠ 34)), rest)
  | _ => none

/-- Is the byte an ASCII decimal digit? -/
def isDigitByte (b : Nat) : Bool := 48 ≤ b && b ≤ 57

/-- Consume a decimal number literal. -/
def parseNatField (bs : List Nat) : Option (Nat × List Nat) :=
  let digits := bs.takeWhile isDigitByte
  if digits = [] then none
  else some (digits.foldl (fun a d => a * 10 + (d - 48)) 0, bs.dropWhile isDigitByte)

/-- Parse the canonical header serialization produced by `headerJson`. -/
def parseHeaderBytes (bs : List Nat) : Option ImageHeader := do
  let bs ← expectLit "\x7b\"timestamp\": \"" bs
  let (ts, bs) ← parseStringField bs
  let bs ← expectLit ", \"size\": " bs
  let (n, bs) ← parseNatField bs
  let bs ← expectLit ", \"checksum\": \"" bs
  let (cs, bs) ← parseStringField bs
  let bs ← expectLit ", \"metadata\": " bs
  match bs.getLast? with
  | some 125 => some ⟨ts, n, cs, bytesToStr bs.dropLast⟩
  | _ => none

/-! ### Round trip: the parser inverts the printer -/

theorem strBytes_append (s t : String) : strBytes (s ++ t) = strBytes s ++ strBytes t := by
  simp [strBytes, String.data_append]

theorem bytesToStr_strBytes (s : String) : bytesToStr (strBytes s) = s := by
  unfold bytesToStr strBytes
  rw [List.map_map]
  have h : (Char.ofNat ∘ Char.toNat) = id := funext fun c => Char.ofNat_toNat c
  rw [h, List.map_id]

theorem expectLit_run (lit : String) (rest : List Nat) :
    expectLit lit (strBytes lit ++ rest) = some rest := by
  unfold expectLit
  rw [if_pos, List.drop_left]
  rw [List.isPrefixOf_iff_prefix]
  exact List.prefix_append _ _

theorem takeWhile_append_all {p : Nat → Bool} {xs : List Nat} (ys : List Nat)
    (h : ∀ x ∈ xs, p x = true) :
    (xs ++ ys).takeWhile p = xs ++ ys.takeWhile p := by
  induction xs with
  | nil => simp
  | cons a t ih =>
      simp only [List.cons_append, List.takeWhile_cons, h a (by simp), if_true]
      rw [ih fun x hx => h x (by simp [hx])]

theorem dropWhile_append_all {p : Nat → Bool} {xs : List Nat} (ys : List Nat)
    (h : ∀ x ∈ xs, p x = true) :
    (xs ++ ys).dropWhile p = ys.dropWhile p := by
  induction xs with
  | nil => simp
  | cons a t ih =>
      simp only [List.cons_append, List.dropWhile_cons, h a (by simp)]
      exact ih fun x hx => h x (by simp [hx])

theorem parseStringField_run (s : String) (rest : List Nat)
    (h : ∀ b ∈ strBytes s, b ≠ 34) :
    parseStringField (strBytes s ++ 34 :: rest) = some (s, rest) := by
  unfold parseStringField
  have hall : ∀ b ∈ strBytes s, (fun x => decide (x ≠ 34)) b = true := by
    intro b hb
    simpa using h b hb
  rw [dropWhile_append_all _ hall, takeWhile_append_all _ hall]
  simp [List.dropWhile_cons, List.takeWhile_cons, bytesToStr_strBytes]

theorem toNat_digitChar (d : Nat) (h : d < 10) :
    (Char.ofNat (48 + d)).toNat = 48 + d := by
  interval_cases d <;> rfl

theorem isDigitByte_digitChar (d : Nat) (h : d < 10) :
    isDigitByte ((Char.ofNat (48 + d)).toNat) = true := by
  interval_cases d <;> rfl

theorem foldr_base10 (l : List Nat) :
    l.foldr (fun d a => a * 10 + d) 0 = Nat.ofDigits 10 l := by
  induction l with
  | nil => rfl
  | cons d t ih => simp [Nat.ofDigits_cons, ih]; ring

theorem natReprBytes_digits (n : Nat) :
    ∀ b ∈ (natRepr n).map Char.toNat, isDigitByte b = true := by
  intro b hb
  unfold natRepr at hb
  by_cases h0 : n = 0
  · rw [if_pos h0] at hb
    simp at hb
    subst hb
    rfl
  · rw [if_neg h0, natDigits_eq_digits, List.map_map] at hb
    simp only [List.mem_map, List.mem_reverse, Function.comp] at hb
    obtain ⟨d, hd, rfl⟩ := hb
    exact isDigitByte_digitChar d (Nat.digits_lt_base (by norm_num) hd)

theorem parseNat_fold (n : Nat) :
    ((natRepr n).map Char.toNat).foldl (fun a d => a * 10 + (d - 48)) 0 = n := by
  by_cases h0 : n = 0
  · subst h0
    rfl
  · unfold natRepr
    rw [if_neg h0, natDigits_eq_digits, List.map_map]
    have hmap : (Nat.digits 10 n).reverse.map (Char.toNat ∘ fun d => Char.ofNat (48 + d)) =
        (Nat.digits 10 n).reverse.map (fun d => 48 + d) := by
      apply List.map_congr_left
      intro d hd
      have : d < 10 := Nat.digits_lt_base (by norm_num) (List.mem_reverse.mp hd)
      simp [toNat_digitChar d this]
    rw [hmap, List.foldl_map, List.foldl_reverse]
    have : (Nat.digits 10 n).foldr (fun x y => y * 10 + (48 + x - 48)) 0 =
        (Nat.digits 10 n).foldr (fun x y => y * 10 + x) 0 := by
      congr 1
      funext x y
      omega
    rw [this, foldr_base10]
    simpa using Nat.ofDigits_digits 10 n

theorem natRepr_ne_nil (n : Nat) : (natRepr n).map Char.toNat ≠ [] := by
  unfold natRepr
  by_cases h0 : n = 0
  · simp [h0]
  · simp [h0, natDigits_eq_digits, Nat.digits_ne_nil_iff_ne_zero.mpr h0]

theorem parseNatField_run (n : Nat) (rest : List Nat)
    (h : ∀ b ∈ rest.take 1, isDigitByte b = false) :
    parseNatField ((natRepr n).map Char.toNat ++ rest) = some (n, rest) := by
  unfold parseNatField
  have hrest_take : rest.takeWhile isDigitByte = [] := by
    cases rest with
    | nil => rfl
    | cons b t => simp [List.takeWhile_cons, h b (by simp)]
  have hrest_drop : rest.dropWhile isDigitByte = rest := by
    cases rest with
    | nil => rfl
    | cons b t => simp [List.dropWhile_cons, h b (by simp)]
  rw [takeWhile_append_all _ (natReprBytes_digits n),
      dropWhile_append_all _ (natReprBytes_digits n), hrest_take, hrest_drop,
      List.append_nil]
  rw [if_neg (natRepr_ne_nil n)]
  rw [parseNat_fold]

theorem headerJson_bytes (h : ImageHeader) :
    strBytes (headerJson h) =
      strBytes "\x7b\"timestamp\": \"" ++ (strBytes h.timestamp ++ 34 ::
        (strBytes ", \"size\": " ++ ((natRepr h.size).map Char.toNat ++
          (strBytes ", \"checksum\": \"" ++ (strBytes h.checksum ++ 34 ::
            (strBytes ", \"metadata\": " ++ (strBytes h.metadata ++ [125]))))))) := by
  simp only [headerJson, strBytes_append, List.append_assoc]
  rfl

theorem parseHeaderBytes_headerJson (h : ImageHeader)
    (hts : ∀ b ∈ strBytes h.timestamp, b ≠ 34)
    (hcs : ∀ b ∈ strBytes h.checksum, b ≠ 34) :
    parseHeaderBytes (strBytes (headerJson h)) = some h := by
  rw [parseHeaderBytes, headerJson_bytes, expectLit_run]
  simp only [Option.bind_eq_bind, Option.some_bind]
  rw [parseStringField_run _ _ hts]
  simp only [Option.some_bind]
  rw [expectLit_run]
  simp only [Option.some_bind]
  have hsplit : strBytes ", \"checksum\": \"" = 44 :: strBytes " \"checksum\": \"" := by
    decide
  rw [hsplit, List.cons_append]
  rw [parseNatField_run _ _ (by intro b hb; simp at hb; subst hb; rfl)]
  simp only [Option.some_bind]
  rw [← List.cons_append, ← hsplit, expectLit_run]
  simp only [Option.some_bind]
  rw [parseStringField_run _ _ hcs]
  simp only [Option.some_bind]
  rw [expectLit_run]
  simp only [Option.some_bind]
  have hlast : (strBytes h.metadata ++ [125]).getLast? = some 125 := by simp
  rw [hlast]
  have hdrop : (strBytes h.metadata ++ [125]).dropLast = strBytes h.metadata := by simp
  rw [hdrop, bytesToStr_strBytes]

/-! ## The M4 shared-memory bridge (`M4SharedMemoryBridge`)

A segment is its byte content (the `mmap`), created zero-filled by
`os.ftruncate`. `read_image_data` is modelled as the pure query it
computes; the metrics/access-count bookkeeping it also performs does not
affect any returned value. -/

structure M4Segment where
  size : Nat
  mem : List Nat
  accessCount : Nat
deriving DecidableEq

structure M4State where
  segments : List (String × M4Segment)
deriving DecidableEq

/-- One `mmap.write` at a position: `ValueError` (no bytes written) when the
data would run past the end of the map. -/
def writeAt (mem : List Nat) (pos : Nat) (data : List Nat) : Option (List Nat) :=
  if pos + data.length ≤ mem.length then
    some (mem.take pos ++ data ++ mem.drop (pos + data.length))
  else none

/-- `create_shared_segment`: a fresh zero-filled segment of the given size. -/
def createSharedSegment (st : M4State) (name : String) (size : Nat) : M4State :=
  ⟨alistInsert name ⟨size, List.replicate size 0, 0⟩ st.segments⟩

/-- `write_image_data`: auto-create the segment when absent (sized
`len(image_data) + 1024`), then write the little-endian header length, the
JSON header and the payload sequentially; a failed write leaves the bytes
already written and returns `False`. -/
def writeImageData (st : M4State) (name : String) (img : List Nat)
    (ts metaJson : String) : M4State × Bool :=
  let st1 := if (alistFind name st.segments).isSome then st
             else createSharedSegment st name (img.length + 1024)
  match alistFind name st1.segments with
  | none => (st1, false)
  | some seg =>
    let header : ImageHeader := ⟨ts, img.length, checksumHex img, metaJson⟩
    let hb := strBytes (headerJson header)
    match writeAt seg.mem 0 (packLE4 hb.length) with
    | none => (st1, false)
    | some m1 =>
      match writeAt m1 4 hb with
      | none => (⟨alistInsert name { seg with mem := m1 } st1.segments⟩, false)
      | some m2 =>
        match writeAt m2 (4 + hb.length) img with
        | none => (⟨alistInsert name { seg with mem := m2 } st1.segments⟩, false)
        | some m3 =>
          (⟨alistInsert name
              { seg with mem := m3, accessCount := seg.accessCount + 1 }
              st1.segments⟩, true)

/-- `read_image_data`: header length, JSON header, payload, then the
checksum validation; every failure (missing segment, short header-length
field, unparsable header, checksum mismatch) returns `(None, None)`. -/
def readImageData (st : M4State) (name : String) : Option (List Nat × String) :=
  match alistFind name st.segments with
  | none => none
  | some seg =>
    let hsd := seg.mem.take 4
    if hsd.length ≠ 4 then none
    else
      let headerSize := unpackLE4 hsd
      match parseHeaderBytes ((seg.mem.drop 4).take headerSize) with
      | none => none
      | some header =>
        let img := ((seg.mem.drop 4).drop headerSize).take header.size
        if checksumHex img = header.checksum then some (img, header.metadata)
        else none

/-- The header currently serialized in a segment, as `read_image_data`
would decode it: the bytes after the 4-byte little-endian length field. -/
def storedHeader (st : M4State) (name : String) : Option ImageHeader :=
  match alistFind name st.segments with
  | none => none
  | some seg => parseHeaderBytes ((seg.mem.drop 4).take (unpackLE4 (seg.mem.take 4)))

/-- Overwrite one byte of a segment's memory (the corruption experiment). -/
def corruptByte (st : M4State) (name : String) (pos b : Nat) : M4State :=
  match alistFind name st.segments with
  | none => st
  | some seg => ⟨alistInsert name { seg with mem := seg.mem.set pos b } st.segments⟩

/-! ### Digest shape facts -/

theorem shaRound_length (s : List Nat) (k wi : Nat) :
    (shaRound s k wi).length = s.length := by
  unfold shaRound
  split <;> rfl

theorem foldl_shaRound_length (l : List (Nat × Nat)) (s : List Nat) :
    (l.foldl (fun a kw => shaRound a kw.1 kw.2) s).length = s.length := by
  induction l generalizing s with
  | nil => rfl
  | cons p t ih => rw [List.foldl_cons, ih, shaRound_length]

theorem shaCompress_length (hs block : List Nat) (h : hs.length = 8) :
    (shaCompress hs block).length = 8 := by
  unfold shaCompress
  rw [List.length_map, List.length_zip, foldl_shaRound_length, h, Nat.min_self]

theorem foldl_shaCompress_length (blocks : List (List Nat)) (hs : List Nat)
    (h : hs.length = 8) : (blocks.foldl shaCompress hs).length = 8 := by
  induction blocks generalizing hs with
  | nil => exact h
  | cons b t ih => exact ih _ (shaCompress_length _ _ h)

theorem sha256_length (msg : List Nat) : (sha256 msg).length = 32 := by
  have h8 := foldl_shaCompress_length
    (chunk64 (shaPad msg).length (shaPad msg)) shaH0 rfl
  simp only [sha256, List.length_flatMap]
  generalize (chunk64 (shaPad msg).length (shaPad msg)).foldl shaCompress shaH0 = hs at h8 ⊢
  have : ∀ l : List Nat,
      (l.map (fun h => ([h / 256 ^ 3 % 256, h / 256 ^ 2 % 256,
        h / 256 % 256, h % 256] : List Nat).length)).sum = 4 * l.length := by
    intro l
    induction l with
    | nil => rfl
    | cons a t ih => simp [ih]; ring
  rw [show (List.length ∘ fun h : Nat => [h / 256 ^ 3 % 256, h / 256 ^ 2 % 256,
      h / 256 % 256, h % 256]) = (fun h : Nat => ([h / 256 ^ 3 % 256, h / 256 ^ 2 % 256,
      h / 256 % 256, h % 256] : List Nat).length) from rfl, this, h8]

theorem flatMap_byteToHexChars_length (l : List Nat) :
    (l.flatMap byteToHexChars).length = 2 * l.length := by
  induction l with
  | nil => rfl
  | cons a t ih => simp [byteToHexChars, ih]; ring

theorem checksumHex_length (msg : List Nat) : (checksumHex msg).length = 16 := by
  show (((sha256 msg).take 8).flatMap byteToHexChars).length = 16
  rw [flatMap_byteToHexChars_length, List.length_take, sha256_length]
  rfl

theorem toNat_hexDigitChar_ne_34 (m : Nat) (h : m < 16) :
    (hexDigitChar m).toNat ≠ 34 := by
  interval_cases m <;> decide

theorem checksumHex_no_quote (msg : List Nat) :
    ∀ b ∈ strBytes (checksumHex msg), b ≠ 34 := by
  intro b hb
  simp only [checksumHex, strBytes, List.mem_map] at hb
  obtain ⟨c, hc, rfl⟩ := hb
  simp only [List.mem_flatMap] at hc
  obtain ⟨x, _, hcx⟩ := hc
  simp only [byteToHexChars, List.mem_cons, List.mem_singleton] at hcx
  rcases hcx with rfl | rfl | h
  · exact toNat_hexDigitChar_ne_34 _ (Nat.mod_lt _ (by norm_num))
  · exact toNat_hexDigitChar_ne_34 _ (Nat.mod_lt _ (by norm_num))
  · cases h

/-! ### Memory layout after a successful write -/

theorem writeAt_append_replicate (x d : List Nat) (m : Nat) (h : d.length ≤ m) :
    writeAt (x ++ List.replicate m 0) x.length d =
      some (x ++ d ++ List.replicate (m - d.length) 0) := by
  unfold writeAt
  rw [if_pos (by simp; omega)]
  rw [List.take_left, List.drop_append, List.drop_replicate]

theorem set_append_add {α : Type} (l r : List α) (i : Nat) (b : α) :
    (l ++ r).set (l.length + i) b = l ++ r.set i b := by
  induction l with
  | nil => simp
  | cons a t ih => simp [List.set, Nat.succ_add, ih]

/-! ### C1: write/read round trip and checksum-guarded corruption -/

section M4Roundtrip

variable (st : M4State) (name : String) (img : List Nat) (ts meta : String)

/-- The header `write_image_data` builds for a payload. -/
def writtenHeader (img : List Nat) (ts meta : String) : ImageHeader :=
  ⟨ts, img.length, checksumHex img, meta⟩

/-- The segment memory after a successful fresh write:
length field, header, payload, zero padding. -/
def writtenMem (img : List Nat) (ts meta : String) : List Nat :=
  let hb := strBytes (headerJson (writtenHeader img ts meta))
  packLE4 hb.length ++ (hb ++ (img ++
    List.replicate (img.length + 1024 - 4 - hb.length - img.length) 0))

theorem writeImageData_fresh
    (hfresh : alistFind name st.segments = none)
    (hsize : (strBytes (headerJson (writtenHeader img ts meta))).length ≤ 1020) :
    writeImageData st name img ts meta =
      (⟨alistInsert name ⟨img.length + 1024, writtenMem img ts meta, 0 + 1⟩
          (alistInsert name ⟨img.length + 1024,
            List.replicate (img.length + 1024) 0, 0⟩ st.segments)⟩, true) := by
  set hb := strBytes (headerJson (writtenHeader img ts meta)) with hhb
  set L := img.length with hL
  have h1 : writeAt (List.replicate (L + 1024) 0) 0 (packLE4 hb.length) =
      some (packLE4 hb.length ++ List.replicate (L + 1024 - 4) 0) := by
    have h := writeAt_append_replicate [] (packLE4 hb.length) (L + 1024)
      (by rw [packLE4_length]; omega)
    simpa [packLE4_length] using h
  have h2 : writeAt (packLE4 hb.length ++ List.replicate (L + 1024 - 4) 0) 4 hb =
      some ((packLE4 hb.length ++ hb) ++ List.replicate (L + 1024 - 4 - hb.length) 0) := by
    have h := writeAt_append_replicate (packLE4 hb.length) hb (L + 1024 - 4) (by omega)
    rwa [packLE4_length] at h
  have h3 : writeAt ((packLE4 hb.length ++ hb) ++ List.replicate (L + 1024 - 4 - hb.length) 0)
      (4 + hb.length) img =
      some (((packLE4 hb.length ++ hb) ++ img) ++
        List.replicate (L + 1024 - 4 - hb.length - L) 0) := by
    have h := writeAt_append_replicate (packLE4 hb.length ++ hb) img
      (L + 1024 - 4 - hb.length) (by omega)
    rwa [List.length_append, packLE4_length] at h
  simp only [writeImageData, createSharedSegment, hfresh, Option.isSome_none,
    Bool.false_eq_true, if_false, alistFind_insert_self]
  rw [show strBytes (headerJson ⟨ts, img.length, checksumHex img, meta⟩) = hb from rfl]
  rw [← hL]
  simp only [h1, h2, h3]
  simp only [writtenMem, ← hhb, ← hL, List.append_assoc]

theorem readImageData_writtenMem (segs : List (String × M4Segment)) (ac sz : Nat)
    (hts : ∀ b ∈ strBytes ts, b ≠ 34)
    (hsize : (strBytes (headerJson (writtenHeader img ts meta))).length ≤ 1020) :
    readImageData ⟨alistInsert name ⟨sz, writtenMem img ts meta, ac⟩ segs⟩ name =
      some (img, meta) := by
  set hb := strBytes (headerJson (writtenHeader img ts meta)) with hhb
  set rest := hb ++ (img ++
    List.replicate (img.length + 1024 - 4 - hb.length - img.length) 0) with hrest
  have htake4 : (packLE4 hb.length ++ rest).take 4 = packLE4 hb.length := by
    rw [← packLE4_length hb.length]
    exact List.take_left _ _
  have hdrop4 : (packLE4 hb.length ++ rest).drop 4 = rest := by
    rw [← packLE4_length hb.length]
    exact List.drop_left _ _
  have hparse : parseHeaderBytes hb = some (writtenHeader img ts meta) := by
    rw [hhb]
    exact parseHeaderBytes_headerJson _ hts (checksumHex_no_quote img)
  simp only [readImageData, alistFind_insert_self, writtenMem, ← hhb, ← hrest,
    htake4, hdrop4, packLE4_length, unpackLE4_packLE4 hb.length (by omega), ne_eq,
    eq_self_iff_true, not_true_eq_false, if_false]
  rw [hrest, List.take_left, ← hrest]
  simp only [hparse]
  rw [hrest, List.drop_left]
  rw [show (writtenHeader img ts meta).size = img.length from rfl, List.take_left]
  rw [show (writtenHeader img ts meta).checksum = checksumHex img from rfl, if_pos rfl]
  rfl

end M4Roundtrip

/-- C1: for every payload written by `write_image_data` into a fresh
segment (whose auto-created size fits the serialized header, as it always
does for the headers the bridge emits), `read_image_data` returns exactly
the payload and metadata; the checksum stored in the segment's JSON header
after the 4-byte little-endian length field is the 16-hex-character
truncated SHA-256 of the payload; and corrupting any payload byte in place
makes `read_image_data` return no data whenever the corrupted payload's
truncated hash differs from the stored one — the concrete witness
instantiates this with an explicit corrupted byte whose hash does differ. -/
theorem write_read_roundtrip_and_corruption_detected
    (st : M4State) (name : String) (img : List Nat) (ts meta : String)
    (hfresh : alistFind name st.segments = none)
    (hts : ∀ b ∈ strBytes ts, b ≠ 34)
    (hsize : (strBytes (headerJson (writtenHeader img ts meta))).length ≤ 1020) :
    (writeImageData st name img ts meta).2 = true ∧
    readImageData (writeImageData st name img ts meta).1 name = some (img, meta) ∧
    storedHeader (writeImageData st name img ts meta).1 name =
      some (writtenHeader img ts meta) ∧
    (writtenHeader img ts meta).checksum = checksumHex img ∧
    (writtenHeader img ts meta).checksum.length = 16 ∧
    ∀ i b, i < img.length →
      checksumHex (img.set i b) ≠ checksumHex img →
      readImageData (corruptByte (writeImageData st name img ts meta).1 name
        (4 + (strBytes (headerJson (writtenHeader img ts meta))).length + i) b)
        name = none := by
  rw [writeImageData_fresh st name img ts meta hfresh hsize]
  refine ⟨rfl, readImageData_writtenMem name img ts meta _ _ _ hts hsize, ?_, rfl,
    checksumHex_length img, ?_⟩
  · set hb := strBytes (headerJson (writtenHeader img ts meta)) with hhb
    set rest := hb ++ (img ++
      List.replicate (img.length + 1024 - 4 - hb.length - img.length) 0) with hrest
    have htake4 : (packLE4 hb.length ++ rest).take 4 = packLE4 hb.length := by
      rw [← packLE4_length hb.length]
      exact List.take_left _ _
    have hdrop4 : (packLE4 hb.length ++ rest).drop 4 = rest := by
      rw [← packLE4_length hb.length]
      exact List.drop_left _ _
    have hparse : parseHeaderBytes hb = some (writtenHeader img ts meta) := by
      rw [hhb]
      exact parseHeaderBytes_headerJson _ hts (checksumHex_no_quote img)
    simp only [storedHeader, alistFind_insert_self, writtenMem, ← hhb, ← hrest,
      htake4, hdrop4, packLE4_length, unpackLE4_packLE4 hb.length (by omega)]
    rw [hrest, List.take_left]
    exact hparse
  · intro i b hi hcs
    set hb := strBytes (headerJson (writtenHeader img ts meta)) with hhb
    have hmem : writtenMem img ts meta =
        (packLE4 hb.length ++ hb) ++ (img ++
          List.replicate (img.length + 1024 - 4 - hb.length - img.length) 0) := by
      simp [writtenMem, ← hhb, List.append_assoc]
    have hset : (writtenMem img ts meta).set (4 + hb.length + i) b =
        packLE4 hb.length ++ (hb ++ (img.set i b ++
          List.replicate (img.length + 1024 - 4 - hb.length - img.length) 0)) := by
      rw [hmem, show 4 + hb.length + i = (packLE4 hb.length ++ hb).length + i from by
        simp [packLE4_length], set_append_add, List.set_append_left _ _ hi,
        List.append_assoc]
    simp only [corruptByte, alistFind_insert_self, ← hhb, hset]
    set rest := hb ++ (img.set i b ++
      List.replicate (img.length + 1024 - 4 - hb.length - img.length) 0) with hrest
    have htake4 : (packLE4 hb.length ++ rest).take 4 = packLE4 hb.length := by
      rw [← packLE4_length hb.length]
      exact List.take_left _ _
    have hdrop4 : (packLE4 hb.length ++ rest).drop 4 = rest := by
      rw [← packLE4_length hb.length]
      exact List.drop_left _ _
    have hparse : parseHeaderBytes hb = some (writtenHeader img ts meta) := by
      rw [hhb]
      exact parseHeaderBytes_headerJson _ hts (checksumHex_no_quote img)
    simp only [readImageData, alistFind_insert_self, ← hrest, htake4, hdrop4,
      packLE4_length, unpackLE4_packLE4 hb.length (by omega), ne_eq,
      eq_self_iff_true, not_true_eq_false, if_false]
    rw [hrest, List.take_left, ← hrest]
    simp only [hparse]
    rw [hrest, List.drop_left]
    rw [show (writtenHeader img ts meta).size = img.length from rfl,
      show img.length = (img.set i b).length from (List.length_set img i b).symm,
      List.take_left]
    rw [if_neg]
    exact fun h => hcs h

/-- Witness for C1: a concrete three-byte payload written to a fresh
segment reads back exactly, and flipping its first byte to 9 (whose
truncated hash differs, as `decide` computes) makes the read report
corruption. -/
theorem write_read_roundtrip_and_corruption_detected_witness :
    readImageData (writeImageData ⟨[]⟩ "seg" [1, 2, 3] "t" "\x7b\x7d").1 "seg" =
      some ([1, 2, 3], "\x7b\x7d") ∧
    readImageData (corruptByte (writeImageData ⟨[]⟩ "seg" [1, 2, 3] "t" "\x7b\x7d").1
      "seg" (4 + (strBytes (headerJson (writtenHeader [1, 2, 3] "t" "\x7b\x7d"))).length + 0)
      9) "seg" = none := by
  have h := write_read_roundtrip_and_corruption_detected ⟨[]⟩ "seg" [1, 2, 3] "t" "\x7b\x7d"
    rfl (by decide) (by decide)
  exact ⟨h.2.1, h.2.2.2.2.2 0 9 (by decide) (by decide)⟩

/-! ## The ane-bridge segment allocator (`ImageSegmentManager`)

Times are rational (`time.time()` readings passed in explicitly); the
success of the OS-level `SharedMemory` creation is an explicit `createOk`
input, since it is environment nondeterminism. -/

/-- `SharedMemorySegment` (ane-bridge variant). -/
structure SMSegment where
  name : String
  size : Nat
  request_id : String
  created_at : ℚ
  status : String
  image_shape : List Nat
  dtype : String
deriving DecidableEq

/-- A `multiprocessing.shared_memory.SharedMemory` handle. -/
structure ShmObject where
  name : String
  size : Nat
deriving DecidableEq

structure SegMgrState where
  default_segment_size : Nat
  max_segments : Nat
  active_segments : List (String × SMSegment)
  shared_memory_objects : List (String × ShmObject)
deriving DecidableEq

/-- `calculate_segment_size`: payload bytes + 4 KiB metadata + 1 KiB
padding, rounded up to a whole MiB. -/
def calculateSegmentSize (shape : List Nat) (dtype : String) : Nat :=
  let bytesPerPixel := if dtype = "uint8" then 1 else if dtype = "float32" then 4 else 1
  let imageSize := shape.prod * bytesPerPixel
  let totalSize := imageSize + 4096 + 1024
  ((totalSize + 1024 * 1024 - 1) / (1024 * 1024)) * (1024 * 1024)

/-- `deallocate_segment`: drop the request's bindings from both maps. -/
def deallocateSegment (st : SegMgrState) (rid : String) : SegMgrState :=
  { st with shared_memory_objects := alistRemove rid st.shared_memory_objects,
            active_segments := alistRemove rid st.active_segments }

/-- The request ids collected by `_cleanup_expired_segments`: strictly
older than the 300-second staleness window. -/
def expiredRequests (st : SegMgrState) (now : ℚ) : List String :=
  (st.active_segments.filter (fun p => 300 < now - p.2.created_at)).map Prod.fst

/-- `_cleanup_expired_segments`: deallocate every expired segment. -/
def cleanupExpiredSegments (st : SegMgrState) (now : ℚ) : SegMgrState :=
  (expiredRequests st now).foldl deallocateSegment st

inductive AllocError where
  | resourceExhausted
  | allocationFailed
deriving DecidableEq

/-- `str(e)` for the two `RuntimeError`s `allocate_segment` raises. -/
def allocErrorMsg : AllocError → String
  | .resourceExhausted => "Maximum shared memory segments exceeded"
  | .allocationFailed => "Shared memory allocation failed"

/-- `allocate_segment`: sweep when at capacity, fail with
`ResourceExhausted` when still at capacity, otherwise create the segment
and record it under the request id. The pair carries the post-state, since
the Python object mutates in place even when it raises. -/
def allocateSegment (st : SegMgrState) (now : ℚ) (rid : String)
    (shape : List Nat) (dtype : String) (createOk : Bool) :
    SegMgrState × Except AllocError String :=
  let st1 := if st.active_segments.length ≥ st.max_segments
             then cleanupExpiredSegments st now else st
  if st1.active_segments.length ≥ st.max_segments then
    (st1, .error .resourceExhausted)
  else
    let segmentSize := calculateSegmentSize shape dtype
    let segmentName := "ane_bridge_" ++ rid ++ "_" ++ String.mk (natRepr now.floor.toNat)
    if createOk then
      let seg : SMSegment := ⟨segmentName, segmentSize, rid, now, "allocated", shape, dtype⟩
      ({ st1 with
          active_segments := alistInsert rid seg st1.active_segments,
          shared_memory_objects :=
            alistInsert rid ⟨segmentName, segmentSize⟩ st1.shared_memory_objects },
        .ok segmentName)
    else (st1, .error .allocationFailed)

/-! ### C2: the capacity bound and the staleness sweep -/

theorem alistRemove_eq_filter {α : Type} (k : String) (l : List (String × α))
    (hnd : (l.map Prod.fst).Nodup) :
    alistRemove k l = l.filter (fun p => p.1 ≠ k) := by
  induction l with
  | nil => rfl
  | cons p rest ih =>
      simp only [List.map_cons, List.nodup_cons] at hnd
      by_cases h : p.1 = k
      · subst h
        rw [alistRemove, if_pos rfl, List.filter_cons, if_neg (by simp)]
        symm
        rw [List.filter_eq_self]
        intro q hq
        simp only [ne_eq, decide_eq_true_eq]
        intro he
        exact hnd.1 (he ▸ List.mem_map_of_mem Prod.fst hq)
      · rw [alistRemove, if_neg h, List.filter_cons, if_pos (by simp [h]), ih hnd.2]

theorem keys_filter_sublist {α : Type} (p : String × α → Bool) (l : List (String × α)) :
    ((l.filter p).map Prod.fst).Sublist (l.map Prod.fst) :=
  (l.filter_sublist).map Prod.fst

theorem foldl_deallocate_active (rids : List String) (st : SegMgrState)
    (hnd : (st.active_segments.map Prod.fst).Nodup) :
    (rids.foldl deallocateSegment st).active_segments =
      st.active_segments.filter (fun p => p.1 ∉ rids) := by
  induction rids generalizing st with
  | nil => simp
  | cons r rs ih =>
      rw [List.foldl_cons]
      have hrem : (deallocateSegment st r).active_segments =
          st.active_segments.filter (fun p => p.1 ≠ r) := by
        simp [deallocateSegment, alistRemove_eq_filter r _ hnd]
      have hnd' : ((deallocateSegment st r).active_segments.map Prod.fst).Nodup := by
        rw [hrem]
        exact (keys_filter_sublist _ _).nodup hnd
      rw [ih _ hnd', hrem, List.filter_filter]
      apply List.filter_congr
      intro p hp
      simp [List.mem_cons, not_or, Bool.and_comm]

theorem length_filter_lt {α : Type} (p : α → Bool) (l : List α) (x : α)
    (hx : x ∈ l) (hpx : p x = false) : (l.filter p).length < l.length := by
  induction l with
  | nil => cases hx
  | cons a t ih =>
      rw [List.filter_cons]
      rcases List.mem_cons.mp hx with rfl | hxt
      · rw [hpx]
        simp only [Bool.false_eq_true, if_false, List.length_cons]
        exact Nat.lt_succ_of_le (List.length_filter_le p t)
      · by_cases hpa : p a = true
        · simp only [hpa, if_true, List.length_cons]
          exact Nat.succ_lt_succ (ih hxt)
        · simp only [Bool.not_eq_true] at hpa
          rw [hpa]
          simp only [Bool.false_eq_true, if_false, List.length_cons]
          exact Nat.lt_succ_of_lt (ih hxt)

/-- C2: at capacity with no segment older than the 300-second window,
`allocate_segment` fails with the `ResourceExhausted` error and leaves the
manager unchanged; with at least one segment past the window, the sweep
removes it and the same allocation succeeds, registering the new request. -/
theorem allocate_segment_capacity
    (st : SegMgrState) (now : ℚ) (rid : String) (shape : List Nat) (dtype : String)
    (hnd : (st.active_segments.map Prod.fst).Nodup)
    (hfull : st.active_segments.length = st.max_segments) :
    ((∀ p ∈ st.active_segments, ¬ 300 < now - p.2.created_at) →
      allocateSegment st now rid shape dtype true =
        (st, .error .resourceExhausted)) ∧
    ((∃ p ∈ st.active_segments, 300 < now - p.2.created_at) →
      ∃ st' name, allocateSegment st now rid shape dtype true = (st', .ok name) ∧
        alistFind rid st'.active_segments ≠ none) := by
  constructor
  · intro hnone
    have hexp : expiredRequests st now = [] := by
      unfold expiredRequests
      rw [List.filter_eq_nil_iff.mpr (fun p hp => by simpa using hnone p hp)]
      rfl
    have hclean : cleanupExpiredSegments st now = st := by
      rw [cleanupExpiredSegments, hexp]
      rfl
    rw [allocateSegment]
    simp only [hfull, ge_iff_le, le_refl, if_true, hclean]
  · rintro ⟨p, hp, hstale⟩
    have hlt : (cleanupExpiredSegments st now).active_segments.length <
        st.max_segments := by
      rw [cleanupExpiredSegments, foldl_deallocate_active _ _ hnd, ← hfull]
      refine length_filter_lt _ _ p hp ?_
      simp only [decide_eq_false_iff_not, Decidable.not_not, expiredRequests]
      exact List.mem_map_of_mem Prod.fst (List.mem_filter.mpr ⟨hp, by simpa using hstale⟩)
    rw [allocateSegment]
    simp only [hfull, ge_iff_le, le_refl, if_true]
    rw [if_neg (by omega)]
    exact ⟨_, _, rfl, by rw [alistFind_insert_self]; exact fun h => Option.noConfusion h⟩

/-- Witness for C2: a one-slot manager holding one segment created at time
0 rejects a new allocation at time 100 (the segment is 100 s old, not
stale) and accepts it at time 400 (the sweep removes the 400 s-old
segment). -/
theorem allocate_segment_capacity_witness :
    (allocateSegment ⟨52428800, 1, [("r1", ⟨"s1", 1048576, "r1", 0, "allocated",
        [480, 640, 3], "uint8"⟩)], [("r1", ⟨"s1", 1048576⟩)]⟩ 100 "r2"
        [480, 640, 3] "uint8" true).2 = .error .resourceExhausted ∧
    ∃ st' name, allocateSegment ⟨52428800, 1, [("r1", ⟨"s1", 1048576, "r1", 0,
        "allocated", [480, 640, 3], "uint8"⟩)], [("r1", ⟨"s1", 1048576⟩)]⟩ 400 "r2"
        [480, 640, 3] "uint8" true = (st', .ok name) ∧
      alistFind "r2" st'.active_segments ≠ none := by
  constructor
  · rw [(allocate_segment_capacity _ 100 "r2" [480, 640, 3] "uint8"
      (by simp) rfl).1 (by
        intro p hp
        simp only [List.mem_singleton] at hp
        subst hp
        norm_num)]
  · exact (allocate_segment_capacity _ 400 "r2" [480, 640, 3] "uint8"
      (by simp) rfl).2 ⟨_, List.mem_cons_self _ _, by norm_num⟩

/-! ## The ane-bridge transfer pipeline (`SharedMemoryBridge`)

`process_image_zero_copy` is modelled as a total state transformer. The
environment nondeterminism is explicit: `now` the clock at the request
start, `latency` the measured elapsed milliseconds, `allocOk` whether the
OS-level shared-memory creation succeeds, and `signalled` whether the
bounded wait on the completion event returns before its timeout. Raised
exceptions never escape the function (its own `except` block turns them
into results), so the return type is a plain pair. The `bounding_boxes`
and `language` result fields, `None` in every constructor call in the
source, are omitted. -/

structure ProcessingRequest where
  request_id : String
  segment_name : String
  image_shape : List Nat
  recognition_level : String
  languages : List String
  custom_words : List String
  minimum_text_height : ℚ
  timestamp : ℚ
deriving DecidableEq

structure ProcessingResult where
  request_id : String
  text : String
  confidence : ℚ
  processing_time_ms : ℚ
  ane_used : Bool
  error : Option String
  cache_hit : Bool
deriving DecidableEq

structure BridgeMetrics where
  total_requests : Nat
  successful_requests : Nat
  failed_requests : Nat
  average_latency_ms : ℚ
  memory_segments_active : Nat
  memory_usage_mb : ℚ
  zero_copy_transfers : Nat
  fallback_http_requests : Nat
  last_request_time : Option ℚ
deriving DecidableEq

/-- The all-zero metrics a fresh bridge starts with. -/
def BridgeMetrics.init : BridgeMetrics :=
  ⟨0, 0, 0, 0, 0, 0, 0, 0, none⟩

/-- `SynchronizationManager` state: the event's set-flag per request and
the lock objects (opaque). -/
structure SyncState where
  max_concurrent : Nat
  active_events : List (String × Bool)
  event_locks : List (String × Unit)
deriving DecidableEq

/-- `create_request_event`. -/
def createRequestEvent (st : SyncState) (rid : String) : SyncState :=
  { st with active_events := alistInsert rid false st.active_events,
            event_locks := alistInsert rid () st.event_locks }

/-- `signal_processing_ready`: set the event if it exists. -/
def signalProcessingReady (st : SyncState) (rid : String) : SyncState :=
  if (alistFind rid st.active_events).isSome then
    { st with active_events := alistInsert rid true st.active_events }
  else st

/-- `wait_for_completion`: `False` when the request has no event;
otherwise the outcome of the bounded wait, an environment input. -/
def waitForCompletion (st : SyncState) (rid : String) (signalled : Bool) : Bool :=
  if (alistFind rid st.active_events).isSome then signalled else false

/-- `cleanup_request` on the synchronization manager. -/
def syncCleanupRequest (st : SyncState) (rid : String) : SyncState :=
  { st with active_events := alistRemove rid st.active_events,
            event_locks := alistRemove rid st.event_locks }

structure BridgeState where
  segment_manager : SegMgrState
  sync_manager : SyncState
  metrics : BridgeMetrics
  active_requests : List (String × ProcessingRequest)
  result_cache : List (String × ProcessingResult)
  http_fallback_enabled : Bool
deriving DecidableEq

/-- `_estimate_image_shape`. -/
def estimateImageShape (dataSize : Nat) : List Nat :=
  if dataSize > 5 * 1024 * 1024 then [2160, 3840, 3]
  else if dataSize > 2 * 1024 * 1024 then [1080, 1920, 3]
  else if dataSize > 500 * 1024 then [720, 1280, 3]
  else [480, 640, 3]

/-- `_read_processing_result` (the in-repo result read, a fixed success
payload; `processing_time_ms` is overwritten by the caller). -/
def readProcessingResult (rid : String) : ProcessingResult :=
  ⟨rid, "Shared memory OCR processing completed successfully",
    95 / 100, 0, true, none, false⟩

/-- `_fallback_to_http`: bump the fallback counter and return the fixed
HTTP-transport result. -/
def fallbackToHttp (st : BridgeState) (rid : String) :
    BridgeState × ProcessingResult :=
  ({ st with metrics :=
      { st.metrics with
          fallback_http_requests := st.metrics.fallback_http_requests + 1 } },
   ⟨rid, "HTTP fallback OCR processing", 80 / 100, 15, true, none, false⟩)

/-- `_update_metrics`: stamp the request time and fold the latency into
the average — directly on the first request, by a 0.1-weight exponential
moving average afterwards. -/
def updateMetrics (m : BridgeMetrics) (t now : ℚ) : BridgeMetrics :=
  let m1 := { m with last_request_time := some now }
  if m1.total_requests = 1 then { m1 with average_latency_ms := t }
  else { m1 with average_latency_ms :=
          (1 / 10) * t + (1 - 1 / 10) * m1.average_latency_ms }

/-- `_cleanup_request`: active-request entry, synchronization objects and
the memory segment, unconditionally. -/
def cleanupRequest (st : BridgeState) (rid : String) : BridgeState :=
  { st with active_requests := alistRemove rid st.active_requests,
            sync_manager := syncCleanupRequest st.sync_manager rid,
            segment_manager := deallocateSegment st.segment_manager rid }

/-- `process_image_zero_copy`: allocate, write, signal, wait, read — with
the timeout/fallback/exception paths of the source and the `finally`
cleanup on every exit. -/
def processImageZeroCopy (st : BridgeState) (imageLen : Nat)
    (recognitionLevel : String) (languages customWords : List String)
    (minimumTextHeight : ℚ) (rid : String) (now latency : ℚ)
    (allocOk signalled : Bool) : BridgeState × ProcessingResult :=
  let st := { st with metrics :=
    { st.metrics with total_requests := st.metrics.total_requests + 1 } }
  let shape := estimateImageShape imageLen
  match allocateSegment st.segment_manager now rid shape "uint8" allocOk with
  | (segSt, .error e) =>
      -- the `except` block: count the failure, fold the latency, then
      -- fall back over HTTP or return an error result
      let st := { st with segment_manager := segSt }
      let m := updateMetrics
        { st.metrics with failed_requests := st.metrics.failed_requests + 1 }
        latency now
      let st := { st with metrics := m }
      if st.http_fallback_enabled then
        let (st, res) := fallbackToHttp st rid
        (cleanupRequest st rid, res)
      else
        (cleanupRequest st rid,
         ⟨rid, "", 0, latency, false, some (allocErrorMsg e), false⟩)
  | (segSt, .ok segName) =>
      let st := { st with segment_manager := segSt }
      let preq : ProcessingRequest :=
        ⟨rid, segName, shape, recognitionLevel,
         if languages = [] then ["en-US"] else languages, customWords,
         minimumTextHeight, now⟩
      let st := { st with active_requests := alistInsert rid preq st.active_requests }
      let st := { st with sync_manager := createRequestEvent st.sync_manager rid }
      let st := { st with sync_manager := signalProcessingReady st.sync_manager rid }
      let completed := waitForCompletion st.sync_manager rid signalled
      if completed then
        let res := { readProcessingResult rid with processing_time_ms := latency }
        let m := updateMetrics
          { st.metrics with
              successful_requests := st.metrics.successful_requests + 1,
              zero_copy_transfers := st.metrics.zero_copy_transfers + 1 }
          latency now
        let st := { st with metrics := m }
        (cleanupRequest st rid, res)
      else
        if st.http_fallback_enabled then
          -- timeout: return the HTTP fallback from inside the `try`;
          -- only the `finally` cleanup runs afterwards
          let (st, res) := fallbackToHttp st rid
          (cleanupRequest st rid, res)
        else
          -- `raise TimeoutError` lands in the same `except` block
          let m := updateMetrics
            { st.metrics with failed_requests := st.metrics.failed_requests + 1 }
            latency now
          let st := { st with metrics := m }
          (cleanupRequest st rid,
           ⟨rid, "", 0, latency, false,
            some ("Processing timeout for request " ++ rid), false⟩)

/-! ### C4: cleanup runs on every terminal state -/

theorem mem_keys_alistInsert {α : Type} (k x : String) (v : α) (l : List (String × α))
    (h : x ∈ (alistInsert k v l).map Prod.fst) : x = k ∨ x ∈ l.map Prod.fst := by
  induction l with
  | nil => simpa [alistInsert] using h
  | cons p rest ih =>
      by_cases hp : p.1 = k
      · rw [alistInsert, if_pos hp] at h
        simp only [List.map_cons, List.mem_cons] at h ⊢
        tauto
      · rw [alistInsert, if_neg hp] at h
        simp only [List.map_cons, List.mem_cons] at h ⊢
        rcases h with h | h
        · tauto
        · rcases ih h with h | h <;> tauto

theorem keys_alistInsert_nodup {α : Type} (k : String) (v : α) (l : List (String × α))
    (h : (l.map Prod.fst).Nodup) : ((alistInsert k v l).map Prod.fst).Nodup := by
  induction l with
  | nil => simp [alistInsert]
  | cons p rest ih =>
      simp only [List.map_cons, List.nodup_cons] at h
      by_cases hp : p.1 = k
      · rw [alistInsert, if_pos hp]
        simp only [List.map_cons, List.nodup_cons]
        exact ⟨hp ▸ h.1, h.2⟩
      · rw [alistInsert, if_neg hp]
        simp only [List.map_cons, List.nodup_cons]
        refine ⟨fun hm => ?_, ih h.2⟩
        rcases mem_keys_alistInsert k p.1 v rest hm with he | he
        · exact hp he
        · exact h.1 he

theorem keys_alistRemove_sublist {α : Type} (k : String) (l : List (String × α)) :
    ((alistRemove k l).map Prod.fst).Sublist (l.map Prod.fst) := by
  induction l with
  | nil => simp [alistRemove]
  | cons p rest ih =>
      by_cases hp : p.1 = k
      · rw [alistRemove, if_pos hp]
        exact (List.sublist_cons_self _ _)
      · rw [alistRemove, if_neg hp]
        simpa using ih.cons₂ p.1

theorem keys_alistRemove_nodup {α : Type} (k : String) (l : List (String × α))
    (h : (l.map Prod.fst).Nodup) : ((alistRemove k l).map Prod.fst).Nodup :=
  (keys_alistRemove_sublist k l).nodup h

/-- Invariant: both allocator maps have duplicate-free request-id keys. -/
def SegMgrState.keysNodup (st : SegMgrState) : Prop :=
  (st.active_segments.map Prod.fst).Nodup ∧
  (st.shared_memory_objects.map Prod.fst).Nodup

theorem deallocateSegment_keysNodup (st : SegMgrState) (rid : String)
    (h : st.keysNodup) : (deallocateSegment st rid).keysNodup :=
  ⟨keys_alistRemove_nodup _ _ h.1, keys_alistRemove_nodup _ _ h.2⟩

theorem foldl_deallocate_keysNodup (rids : List String) (st : SegMgrState)
    (h : st.keysNodup) : (rids.foldl deallocateSegment st).keysNodup := by
  induction rids generalizing st with
  | nil => exact h
  | cons r rs ih => exact ih _ (deallocateSegment_keysNodup st r h)

theorem allocateSegment_keysNodup (st : SegMgrState) (now : ℚ) (rid : String)
    (shape : List Nat) (dtype : String) (createOk : Bool) (h : st.keysNodup) :
    (allocateSegment st now rid shape dtype createOk).1.keysNodup := by
  rw [allocateSegment]
  have h1 : (cleanupExpiredSegments st now).keysNodup :=
    foldl_deallocate_keysNodup _ _ h
  by_cases hc : st.active_segments.length ≥ st.max_segments
  · rw [if_pos hc]
    by_cases hc2 : (cleanupExpiredSegments st now).active_segments.length ≥
        st.max_segments
    · rw [if_pos hc2]
      exact h1
    · rw [if_neg hc2]
      cases createOk
      · exact h1
      · exact ⟨keys_alistInsert_nodup _ _ _ h1.1, keys_alistInsert_nodup _ _ _ h1.2⟩
  · rw [if_neg hc]
    by_cases hc2 : st.active_segments.length ≥ st.max_segments
    · rw [if_pos hc2]
      exact h
    · rw [if_neg hc2]
      cases createOk
      · exact h
      · exact ⟨keys_alistInsert_nodup _ _ _ h.1, keys_alistInsert_nodup _ _ _ h.2⟩

/-- After `_cleanup_request`, the request id is gone from all five maps. -/
theorem cleanupRequest_clears (st : BridgeState) (rid : String)
    (hreq : (st.active_requests.map Prod.fst).Nodup)
    (hseg : st.segment_manager.keysNodup)
    (hev : (st.sync_manager.active_events.map Prod.fst).Nodup)
    (hlk : (st.sync_manager.event_locks.map Prod.fst).Nodup) :
    alistFind rid (cleanupRequest st rid).active_requests = none ∧
    alistFind rid (cleanupRequest st rid).segment_manager.active_segments = none ∧
    alistFind rid (cleanupRequest st rid).segment_manager.shared_memory_objects = none ∧
    alistFind rid (cleanupRequest st rid).sync_manager.active_events = none ∧
    alistFind rid (cleanupRequest st rid).sync_manager.event_locks = none :=
  ⟨alistFind_remove_self _ _ hreq, alistFind_remove_self _ _ hseg.1,
   alistFind_remove_self _ _ hseg.2, alistFind_remove_self _ _ hev,
   alistFind_remove_self _ _ hlk⟩

/-- C4: on every terminal outcome — success, timeout with or without
fallback, allocation failure with or without fallback — the `finally`
cleanup runs, and afterwards the request id is absent from the bridge's
active-request map, the allocator's segment and shared-memory maps, and
the synchronization manager's event and lock maps. -/
theorem process_cleanup_on_all_paths
    (st : BridgeState) (imageLen : Nat) (rl : String) (ls cw : List String)
    (mth : ℚ) (rid : String) (now latency : ℚ) (allocOk signalled : Bool)
    (hreq : (st.active_requests.map Prod.fst).Nodup)
    (hseg : st.segment_manager.keysNodup)
    (hev : (st.sync_manager.active_events.map Prod.fst).Nodup)
    (hlk : (st.sync_manager.event_locks.map Prod.fst).Nodup) :
    alistFind rid (processImageZeroCopy st imageLen rl ls cw mth rid now latency
      allocOk signalled).1.active_requests = none ∧
    alistFind rid (processImageZeroCopy st imageLen rl ls cw mth rid now latency
      allocOk signalled).1.segment_manager.active_segments = none ∧
    alistFind rid (processImageZeroCopy st imageLen rl ls cw mth rid now latency
      allocOk signalled).1.segment_manager.shared_memory_objects = none ∧
    alistFind rid (processImageZeroCopy st imageLen rl ls cw mth rid now latency
      allocOk signalled).1.sync_manager.active_events = none ∧
    alistFind rid (processImageZeroCopy st imageLen rl ls cw mth rid now latency
      allocOk signalled).1.sync_manager.event_locks = none := by
  rcases halloc : allocateSegment st.segment_manager now rid
    (estimateImageShape imageLen) "uint8" allocOk with ⟨segSt, r⟩
  have hsegSt : segSt.keysNodup := by
    have h := allocateSegment_keysNodup st.segment_manager now rid
      (estimateImageShape imageLen) "uint8" allocOk hseg
    rwa [halloc] at h
  simp only [processImageZeroCopy, halloc]
  cases r with
  | error e =>
      cases hfb : st.http_fallback_enabled
      · simp only [hfb, Bool.false_eq_true, if_false]
        exact cleanupRequest_clears _ rid hreq hsegSt hev hlk
      · simp only [hfb, if_true]
        exact cleanupRequest_clears _ rid hreq hsegSt hev hlk
  | ok segName =>
      simp only [waitForCompletion, signalProcessingReady, createRequestEvent,
        alistFind_insert_self, Option.isSome_some, if_true]
      have hreq' : ((alistInsert rid
          (⟨rid, segName, estimateImageShape imageLen, rl,
            if ls = [] then ["en-US"] else ls, cw, mth, now⟩ : ProcessingRequest)
          st.active_requests).map Prod.fst).Nodup :=
        keys_alistInsert_nodup _ _ _ hreq
      have hev' : ((alistInsert rid true (alistInsert rid false
          st.sync_manager.active_events)).map Prod.fst).Nodup :=
        keys_alistInsert_nodup _ _ _ (keys_alistInsert_nodup _ _ _ hev)
      have hlk' : ((alistInsert rid () st.sync_manager.event_locks).map Prod.fst).Nodup :=
        keys_alistInsert_nodup _ _ _ hlk
      cases signalled
      · cases hfb : st.http_fallback_enabled
        · simp only [hfb, Bool.false_eq_true, if_false]
          exact cleanupRequest_clears _ rid hreq' hsegSt hev' hlk'
        · simp only [hfb, if_true]
          exact cleanupRequest_clears _ rid hreq' hsegSt hev' hlk'
      · simp only [if_true]
        exact cleanupRequest_clears _ rid hreq' hsegSt hev' hlk'

/-- Witness for C4: a fresh bridge processing a request to completion ends
with the request id absent from every bookkeeping map. -/
theorem process_cleanup_on_all_paths_witness :
    alistFind "r1" (processImageZeroCopy
      ⟨⟨52428800, 20, [], []⟩, ⟨10, [], []⟩, BridgeMetrics.init, [], [], true⟩
      100 "accurate" [] [] (1 / 32) "r1" 0 5 true true).1.active_requests = none ∧
    alistFind "r1" (processImageZeroCopy
      ⟨⟨52428800, 20, [], []⟩, ⟨10, [], []⟩, BridgeMetrics.init, [], [], true⟩
      100 "accurate" [] [] (1 / 32) "r1" 0 5 true true).1.segment_manager.active_segments = none ∧
    alistFind "r1" (processImageZeroCopy
      ⟨⟨52428800, 20, [], []⟩, ⟨10, [], []⟩, BridgeMetrics.init, [], [], true⟩
      100 "accurate" [] [] (1 / 32) "r1" 0 5 true true).1.segment_manager.shared_memory_objects = none ∧
    alistFind "r1" (processImageZeroCopy
      ⟨⟨52428800, 20, [], []⟩, ⟨10, [], []⟩, BridgeMetrics.init, [], [], true⟩
      100 "accurate" [] [] (1 / 32) "r1" 0 5 true true).1.sync_manager.active_events = none ∧
    alistFind "r1" (processImageZeroCopy
      ⟨⟨52428800, 20, [], []⟩, ⟨10, [], []⟩, BridgeMetrics.init, [], [], true⟩
      100 "accurate" [] [] (1 / 32) "r1" 0 5 true true).1.sync_manager.event_locks = none :=
  process_cleanup_on_all_paths
    ⟨⟨52428800, 20, [], []⟩, ⟨10, [], []⟩, BridgeMetrics.init, [], [], true⟩
    100 "accurate" [] [] (1 / 32) "r1" 0 5 true true
    List.nodup_nil ⟨List.nodup_nil, List.nodup_nil⟩ List.nodup_nil List.nodup_nil

/-! ### C3 and C5: the timeout/fallback path and the metrics discipline -/

/-- A freshly constructed bridge (default config, HTTP fallback enabled). -/
def freshBridge : BridgeState :=
  ⟨⟨52428800, 20, [], []⟩, ⟨10, [], []⟩, BridgeMetrics.init, [], [], true⟩

theorem allocateSegment_ok (st : SegMgrState) (now : ℚ) (rid : String)
    (shape : List Nat) (dtype : String)
    (hcap : st.active_segments.length < st.max_segments) :
    allocateSegment st now rid shape dtype true =
      ({ st with
          active_segments := alistInsert rid
            ⟨"ane_bridge_" ++ rid ++ "_" ++ String.mk (natRepr now.floor.toNat),
              calculateSegmentSize shape dtype, rid, now, "allocated", shape, dtype⟩
            st.active_segments,
          shared_memory_objects := alistInsert rid
            ⟨"ane_bridge_" ++ rid ++ "_" ++ String.mk (natRepr now.floor.toNat),
              calculateSegmentSize shape dtype⟩ st.shared_memory_objects },
        .ok ("ane_bridge_" ++ rid ++ "_" ++ String.mk (natRepr now.floor.toNat))) := by
  have h1 : ¬ st.active_segments.length ≥ st.max_segments := by omega
  simp only [allocateSegment, h1, if_false, if_true]

/-- C3 (amended): when the bounded wait for the completion signal reports
a timeout and HTTP fallback is enabled, the call returns — it cannot hang
or raise, being a total function whose source wraps every failure in its
own `except` block — carrying the fixed fallback payload with an empty
error field, and the bridge's fallback counter records the slow transport.
No field of the result itself marks the transport: its `ane_used` flag
stays `true` on this path (see the counterexample). -/
theorem process_timeout_returns_fallback
    (st : BridgeState) (imageLen : Nat) (rl : String) (ls cw : List String)
    (mth : ℚ) (rid : String) (now latency : ℚ)
    (hcap : st.segment_manager.active_segments.length <
      st.segment_manager.max_segments)
    (hfb : st.http_fallback_enabled = true) :
    (processImageZeroCopy st imageLen rl ls cw mth rid now latency
        true false).2 =
      ⟨rid, "HTTP fallback OCR processing", 80 / 100, 15, true, none, false⟩ ∧
    (processImageZeroCopy st imageLen rl ls cw mth rid now latency
        true false).1.metrics.fallback_http_requests =
      st.metrics.fallback_http_requests + 1 := by
  simp only [processImageZeroCopy,
    allocateSegment_ok st.segment_manager now rid (estimateImageShape imageLen)
      "uint8" hcap,
    waitForCompletion, signalProcessingReady, createRequestEvent,
    alistFind_insert_self, Option.isSome_some, if_true, Bool.false_eq_true,
    if_false, hfb, fallbackToHttp, cleanupRequest]
  refine ⟨?_, ?_⟩ <;> first | rfl | trivial

/-- Counterexample to C3 as stated: on the timed-out-with-fallback path the
result's accelerator/transport flag is `true`, not a value indicating that
the fast path was unused. -/
theorem process_timeout_fallback_flag_counterexample :
    (processImageZeroCopy freshBridge 100 "accurate" [] [] (1 / 32) "r1" 0 5
      true false).2.ane_used = true := rfl

/-- Witness for C3: on a fresh bridge the timed-out call returns the
fallback payload with an empty error and bumps the fallback counter. -/
theorem process_timeout_returns_fallback_witness :
    (processImageZeroCopy freshBridge 100 "accurate" [] [] (1 / 32) "r1" 0 5
        true false).2 =
      ⟨"r1", "HTTP fallback OCR processing", 80 / 100, 15, true, none, false⟩ ∧
    (processImageZeroCopy freshBridge 100 "accurate" [] [] (1 / 32) "r1" 0 5
        true false).1.metrics.fallback_http_requests = 1 :=
  process_timeout_returns_fallback freshBridge 100 "accurate" [] [] (1 / 32)
    "r1" 0 5 (by decide) rfl

/-- C5 (amended): `total_requests` rises by exactly one on every call; on
the completed path exactly `successful_requests` rises and the
exponentially-smoothed latency is folded in once; on the
exception/allocation-failure path exactly `failed_requests` rises and the
latency is folded in once; but on the timed-out-with-fallback path neither
success nor failure counter moves and the latency average is left
untouched — there the only update beyond `total_requests` is the fallback
counter (see the counterexample refuting the claim as stated). -/
theorem process_metrics_per_terminal_state
    (st : BridgeState) (imageLen : Nat) (rl : String) (ls cw : List String)
    (mth : ℚ) (rid : String) (now latency : ℚ)
    (hcap : st.segment_manager.active_segments.length <
      st.segment_manager.max_segments) :
    ((processImageZeroCopy st imageLen rl ls cw mth rid now latency
        true true).1.metrics.total_requests = st.metrics.total_requests + 1 ∧
     (processImageZeroCopy st imageLen rl ls cw mth rid now latency
        true true).1.metrics.successful_requests =
          st.metrics.successful_requests + 1 ∧
     (processImageZeroCopy st imageLen rl ls cw mth rid now latency
        true true).1.metrics.failed_requests = st.metrics.failed_requests ∧
     (processImageZeroCopy st imageLen rl ls cw mth rid now latency
        true true).1.metrics.average_latency_ms =
       (if st.metrics.total_requests + 1 = 1 then latency
        else (1 / 10) * latency +
          (1 - 1 / 10) * st.metrics.average_latency_ms)) ∧
    (st.http_fallback_enabled = true →
     (processImageZeroCopy st imageLen rl ls cw mth rid now latency
        true false).1.metrics.total_requests = st.metrics.total_requests + 1 ∧
     (processImageZeroCopy st imageLen rl ls cw mth rid now latency
        true false).1.metrics.successful_requests =
          st.metrics.successful_requests ∧
     (processImageZeroCopy st imageLen rl ls cw mth rid now latency
        true false).1.metrics.failed_requests = st.metrics.failed_requests ∧
     (processImageZeroCopy st imageLen rl ls cw mth rid now latency
        true false).1.metrics.average_latency_ms =
          st.metrics.average_latency_ms) ∧
    (∀ signalled,
     (processImageZeroCopy st imageLen rl ls cw mth rid now latency
        false signalled).1.metrics.total_requests =
          st.metrics.total_requests + 1 ∧
     (processImageZeroCopy st imageLen rl ls cw mth rid now latency
        false signalled).1.metrics.successful_requests =
          st.metrics.successful_requests ∧
     (processImageZeroCopy st imageLen rl ls cw mth rid now latency
        false signalled).1.metrics.failed_requests =
          st.metrics.failed_requests + 1 ∧
     (processImageZeroCopy st imageLen rl ls cw mth rid now latency
        false signalled).1.metrics.average_latency_ms =
       (if st.metrics.total_requests + 1 = 1 then latency
        else (1 / 10) * latency +
          (1 - 1 / 10) * st.metrics.average_latency_ms)) := by
  have hok := allocateSegment_ok st.segment_manager now rid
    (estimateImageShape imageLen) "uint8" hcap
  have hfail : allocateSegment st.segment_manager now rid
      (estimateImageShape imageLen) "uint8" false =
      (st.segment_manager, .error .allocationFailed) := by
    have h1 : ¬ st.segment_manager.active_segments.length ≥
        st.segment_manager.max_segments := by omega
    simp only [allocateSegment, h1, if_false, Bool.false_eq_true]
  refine ⟨?_, ?_, ?_⟩
  · simp only [processImageZeroCopy, hok, waitForCompletion,
      signalProcessingReady, createRequestEvent, alistFind_insert_self,
      Option.isSome_some, if_true, cleanupRequest, updateMetrics]
    refine ⟨?_, ?_, ?_, ?_⟩ <;> first | rfl | trivial | (split <;> rfl)
  · intro hfb
    simp only [processImageZeroCopy, hok, waitForCompletion,
      signalProcessingReady, createRequestEvent, alistFind_insert_self,
      Option.isSome_some, if_true, Bool.false_eq_true, if_false, hfb,
      fallbackToHttp, cleanupRequest]
    refine ⟨?_, ?_, ?_, ?_⟩ <;> first | rfl | trivial
  · intro signalled
    cases hfb : st.http_fallback_enabled
    · simp only [processImageZeroCopy, hfail, hfb, Bool.false_eq_true, if_false,
        cleanupRequest, updateMetrics]
      refine ⟨?_, ?_, ?_, ?_⟩ <;> first | rfl | trivial | (split <;> rfl)
    · simp only [processImageZeroCopy, hfail, hfb, if_true, fallbackToHttp,
        cleanupRequest, updateMetrics]
      refine ⟨?_, ?_, ?_, ?_⟩ <;> first | rfl | trivial | (split <;> rfl)

/-- Counterexample to C5 as stated: on the timed-out-with-fallback path of
a fresh bridge, `total_requests` becomes 1 but neither
`successful_requests` nor `failed_requests` moves and the smoothed latency
is never updated — the metrics update does not happen on this terminal
state. -/
theorem process_metrics_timeout_counterexample :
    (processImageZeroCopy freshBridge 100 "accurate" [] [] (1 / 32) "r1" 0 5
      true false).1.metrics.total_requests = 1 ∧
    (processImageZeroCopy freshBridge 100 "accurate" [] [] (1 / 32) "r1" 0 5
      true false).1.metrics.successful_requests = 0 ∧
    (processImageZeroCopy freshBridge 100 "accurate" [] [] (1 / 32) "r1" 0 5
      true false).1.metrics.failed_requests = 0 ∧
    (processImageZeroCopy freshBridge 100 "accurate" [] [] (1 / 32) "r1" 0 5
      true false).1.metrics.average_latency_ms = 0 :=
  ⟨rfl, rfl, rfl, rfl⟩

/-- Witness for C5: the completed path on a fresh bridge counts one total,
one success, no failure, and sets the first-request average latency. -/
theorem process_metrics_per_terminal_state_witness :
    (processImageZeroCopy freshBridge 100 "accurate" [] [] (1 / 32) "r1" 0 5
      true true).1.metrics.total_requests = 0 + 1 ∧
    (processImageZeroCopy freshBridge 100 "accurate" [] [] (1 / 32) "r1" 0 5
      true true).1.metrics.successful_requests = 0 + 1 ∧
    (processImageZeroCopy freshBridge 100 "accurate" [] [] (1 / 32) "r1" 0 5
      true true).1.metrics.failed_requests = 0 :=
  ⟨((process_metrics_per_terminal_state freshBridge 100 "accurate" [] []
      (1 / 32) "r1" 0 5 (by decide)).1).1,
   ((process_metrics_per_terminal_state freshBridge 100 "accurate" [] []
      (1 / 32) "r1" 0 5 (by decide)).1).2.1,
   ((process_metrics_per_terminal_state freshBridge 100 "accurate" [] []
      (1 / 32) "r1" 0 5 (by decide)).1).2.2.1⟩

/-! ## The dynamic batch optimizer (`batch_optimizer.py`)

Requests are the dicts the optimizer inspects: `.get` with a default is an
`Option` field. The unused statistics in `_optimize_single_batch` (average
decoded size, most common level) do not feed the grouping and are not
modelled; payloads are modelled as valid base64 so the decode there cannot
raise. `optimize_batch` runs after the adaptive-sizing step, so the config
argument below is the post-adaptation config. Python's `list.sort` and
`sorted` are stable; the model uses a structural stable insertion sort,
which produces the same list for the same key. -/

structure OCRRequest where
  priority : Option String
  image_data : String
  recognition_level : Option String
  languages : Option (List String)
deriving DecidableEq

/-- `r.get("priority", "normal")`. -/
def reqPriority (r : OCRRequest) : String := r.priority.getD "normal"

/-- `r.get("recognition_level", "accurate")`. -/
def reqLevel (r : OCRRequest) : String := r.recognition_level.getD "accurate"

structure BatchConfig where
  high_priority_batch_size : Nat
  normal_priority_batch_size : Nat
  max_concurrent : Nat
  adaptive_threshold : ℚ
  performance_target_ms : ℚ
deriving DecidableEq

structure PrioritizedBatch where
  requests : List OCRRequest
  priority : String
  estimated_processing_time_ms : ℚ
  batch_id : String
deriving DecidableEq

/-- `range(0, len(l), size)` chunking, structural in a fuel argument. -/
def chunkListAux {α : Type} (size : Nat) : Nat → List α → List (List α)
  | 0, _ => []
  | _, [] => []
  | fuel + 1, l => l.take size :: chunkListAux size fuel (l.drop size)

def chunkList {α : Type} (size : Nat) (l : List α) : List (List α) :=
  chunkListAux size l.length l

/-- `{"high": 0, "normal": 1, "low": 2}.get(p, 1)`. -/
def priorityOrder (p : String) : Nat :=
  if p = "high" then 0 else if p = "normal" then 1 else if p = "low" then 2 else 1

/-- `_create_prioritized_batches`: partition by declared priority, chunk
each class by its configured size, and stable-sort the batches by priority
order. Requests whose declared priority is none of `high`/`normal`/`low`
match no partition. -/
def createPrioritizedBatches (cfg : BatchConfig) (reqs : List OCRRequest) :
    List PrioritizedBatch :=
  let high := reqs.filter (fun r => reqPriority r = "high")
  let normal := reqs.filter (fun r => reqPriority r = "normal")
  let low := reqs.filter (fun r => reqPriority r = "low")
  let lowSize := max cfg.normal_priority_batch_size 10
  let highBatches := (chunkList cfg.high_priority_batch_size high).enum.map
    (fun p => (⟨p.2, "high", (p.2.length : ℚ) * cfg.performance_target_ms,
      "high_priority_" ++ String.mk (natRepr p.1)⟩ : PrioritizedBatch))
  let normalBatches := (chunkList cfg.normal_priority_batch_size normal).enum.map
    (fun p => (⟨p.2, "normal", (p.2.length : ℚ) * cfg.performance_target_ms,
      "normal_priority_" ++ String.mk (natRepr p.1)⟩ : PrioritizedBatch))
  let lowBatches := (chunkList lowSize low).enum.map
    (fun p => (⟨p.2, "low", (p.2.length : ℚ) * cfg.performance_target_ms,
      "low_priority_" ++ String.mk (natRepr p.1)⟩ : PrioritizedBatch))
  List.insertionSort (fun a b => priorityOrder a.priority ≤ priorityOrder b.priority)
    (highBatches ++ normalBatches ++ lowBatches)

/-- First-occurrence key order of a Python dict built by insertion. -/
def orderedKeys (l : List String) : List String :=
  l.foldl (fun acc k => if k ∈ acc then acc else acc ++ [k]) []

/-- `< 50 KiB / < 200 KiB / < 500 KiB / else` size buckets
(`_get_image_size_category`). -/
def sizeCategory (n : Nat) : String :=
  if n < 50 * 1024 then "small"
  else if n < 200 * 1024 then "medium"
  else if n < 500 * 1024 then "large"
  else "xlarge"

/-- Maximal runs of adjacent elements with equal `f`-value (the
"current group / category changed" loop). -/
def runsBy (f : OCRRequest → String) : List OCRRequest → List (List OCRRequest)
  | [] => []
  | [r] => [[r]]
  | r :: r2 :: rest =>
      match runsBy f (r2 :: rest) with
      | [] => [[r]]
      | g :: gs => if f r = f r2 then (r :: g) :: gs else [r] :: g :: gs

/-- `_group_similar_requests`: group by recognition level in
first-occurrence order, sort each level by payload size (stable), split
into runs of one size category, and fall back to one group when nothing
was produced. -/
def groupSimilarRequests (reqs : List OCRRequest) : List (List OCRRequest) :=
  let levels := orderedKeys (reqs.map reqLevel)
  let finalGroups := levels.flatMap (fun k =>
    runsBy (fun r => sizeCategory r.image_data.length)
      (List.insertionSort (fun a b => a.image_data.length ≤ b.image_data.length)
        (reqs.filter (fun r => reqLevel r = k))))
  if finalGroups = [] then [reqs] else finalGroups

/-- `_optimize_single_batch`: batches of at most two requests pass
through; larger ones are regrouped by similarity. -/
def optimizeSingleBatch (cfg : BatchConfig) (b : PrioritizedBatch) :
    List PrioritizedBatch :=
  if b.requests.length ≤ 2 then [b]
  else
    (groupSimilarRequests b.requests).enum.map (fun p =>
      (⟨p.2, b.priority, (p.2.length : ℚ) * cfg.performance_target_ms,
        b.batch_id ++ "_optimized_" ++ String.mk (natRepr p.1)⟩ : PrioritizedBatch))

/-- `optimize_batch` (after the adaptive-sizing step): prioritize, refine
each batch, return the request lists. -/
def optimizeBatch (cfg : BatchConfig) (reqs : List OCRRequest) :
    List (List OCRRequest) :=
  if reqs = [] then []
  else
    ((createPrioritizedBatches cfg reqs).flatMap
      (optimizeSingleBatch cfg)).map (·.requests)

/-- `_adapt_batch_sizes`: raise all knobs below 30 % load, lower them
above 80 %, clamped to the configured bounds. -/
def adaptBatchSizes (cfg : BatchConfig) (systemLoad : ℚ) : BatchConfig :=
  if systemLoad < 30 then
    { cfg with
        high_priority_batch_size := min 10 (cfg.high_priority_batch_size + 1),
        normal_priority_batch_size := min 20 (cfg.normal_priority_batch_size + 2),
        max_concurrent := min 12 (cfg.max_concurrent + 1) }
  else if systemLoad > 80 then
    { cfg with
        high_priority_batch_size := max 1 (cfg.high_priority_batch_size - 1),
        normal_priority_batch_size := max 2 (cfg.normal_priority_batch_size - 2),
        max_concurrent := max 4 (cfg.max_concurrent - 1) }
  else cfg

/-! ### C6: the batches partition the input -/

theorem flatten_chunkListAux {α : Type} (size : Nat) (hsz : size ≠ 0) :
    ∀ fuel (l : List α), l.length ≤ fuel → (chunkListAux size fuel l).flatten = l := by
  intro fuel
  induction fuel with
  | zero =>
      intro l hl
      rw [Nat.le_zero, List.length_eq_zero] at hl
      subst hl
      rfl
  | succ f ih =>
      intro l hl
      cases l with
      | nil => rfl
      | cons a t =>
          rw [show chunkListAux size (f + 1) (a :: t) =
              (a :: t).take size :: chunkListAux size f ((a :: t).drop size) from rfl,
            List.flatten_cons, ih _ (by simp at hl ⊢; omega), List.take_append_drop]

theorem flatten_chunkList {α : Type} (size : Nat) (l : List α) (hsz : size ≠ 0) :
    (chunkList size l).flatten = l :=
  flatten_chunkListAux size hsz l.length l le_rfl

theorem flatten_runsBy (f : OCRRequest → String) (l : List OCRRequest) :
    (runsBy f l).flatten = l := by
  induction l with
  | nil => rfl
  | cons r t ih =>
      cases t with
      | nil => rfl
      | cons r2 rest =>
          rw [runsBy]
          rcases hr : runsBy f (r2 :: rest) with _ | ⟨g, gs⟩
          · rw [hr] at ih
            simp at ih
          · rw [hr, List.flatten_cons] at ih
            by_cases hf : f r = f r2
            · simp only [hf, if_true, List.flatten_cons, List.cons_append, ih]
            · simp only [hf, if_false, List.flatten_cons, ih]
              rfl

theorem flatten_flatMap {α β : Type} (l : List α) (f : α → List (List β)) :
    (l.flatMap f).flatten = l.flatMap (fun a => (f a).flatten) := by
  induction l with
  | nil => rfl
  | cons a t ih => rw [List.flatMap_cons, List.flatMap_cons, List.flatten_append, ih]

theorem mem_orderedKeys_aux (l : List String) :
    ∀ acc x, (x ∈ l.foldl (fun acc k => if k ∈ acc then acc else acc ++ [k]) acc) ↔
      x ∈ acc ∨ x ∈ l := by
  induction l with
  | nil => simp
  | cons k rest ih =>
      intro acc x
      rw [List.foldl_cons]
      by_cases hk : k ∈ acc
      · rw [if_pos hk, ih]
        constructor
        · rintro (h | h)
          · exact Or.inl h
          · exact Or.inr (List.mem_cons_of_mem k h)
        · rintro (h | h)
          · exact Or.inl h
          · rcases List.mem_cons.mp h with rfl | h
            · exact Or.inl hk
            · exact Or.inr h
      · rw [if_neg hk, ih]
        simp only [List.mem_append, List.mem_singleton, List.mem_cons]
        tauto

theorem mem_orderedKeys (l : List String) (x : String) :
    x ∈ orderedKeys l ↔ x ∈ l := by
  rw [orderedKeys, mem_orderedKeys_aux]
  simp

theorem orderedKeys_nodup_aux (l : List String) :
    ∀ acc, acc.Nodup → (l.foldl (fun acc k => if k ∈ acc then acc else acc ++ [k]) acc).Nodup := by
  induction l with
  | nil => exact fun acc h => h
  | cons k rest ih =>
      intro acc hacc
      rw [List.foldl_cons]
      by_cases hk : k ∈ acc
      · rw [if_pos hk]
        exact ih acc hacc
      · rw [if_neg hk]
        refine ih _ ?_
        rw [List.nodup_append]
        exact ⟨hacc, List.nodup_singleton k, by simpa using hk⟩

theorem orderedKeys_nodup (l : List String) : (orderedKeys l).Nodup :=
  orderedKeys_nodup_aux l [] List.nodup_nil

theorem flatMap_perm_congr {α β : Type} (l : List α) (f g : α → List β)
    (h : ∀ a ∈ l, (f a).Perm (g a)) : (l.flatMap f).Perm (l.flatMap g) := by
  induction l with
  | nil => rfl
  | cons a t ih =>
      rw [List.flatMap_cons, List.flatMap_cons]
      exact (h a (List.mem_cons_self a t)).append
        (ih fun b hb => h b (List.mem_cons_of_mem a hb))

/-- Grouping a list by a key function over a duplicate-free, covering key
list is a permutation of the list. -/
theorem flatMap_filter_perm (fkey : OCRRequest → String) (levels : List String)
    (reqs : List OCRRequest) (hnd : levels.Nodup)
    (hcov : ∀ r ∈ reqs, fkey r ∈ levels) :
    (levels.flatMap (fun k => reqs.filter (fun q => fkey q = k))).Perm reqs := by
  induction levels generalizing reqs with
  | nil =>
      cases reqs with
      | nil => rfl
      | cons r t => exact absurd (hcov r (List.mem_cons_self r t)) (List.not_mem_nil _)
  | cons k rest ih =>
      simp only [List.nodup_cons] at hnd
      rw [List.flatMap_cons]
      have hsub : rest.flatMap (fun k' => reqs.filter (fun q => fkey q = k')) =
          rest.flatMap (fun k' =>
            (reqs.filter (fun q => !decide (fkey q = k))).filter
              (fun q => fkey q = k')) := by
        apply List.flatMap_congr
        intro k' hk'
        rw [List.filter_filter]
        apply List.filter_congr
        intro q hq
        by_cases h : fkey q = k'
        · have hne : ¬fkey q = k := by
            intro he
            have hkk : k' = k := by rw [← h, he]
            exact hnd.1 (hkk ▸ hk')
          have hkk : ¬k' = k := fun he => hnd.1 (he ▸ hk')
          simp [h, hne, hkk]
        · simp [h]
      have hrest : (rest.flatMap (fun k' =>
          reqs.filter (fun q => fkey q = k'))).Perm
          (reqs.filter (fun q => !decide (fkey q = k))) := by
        rw [hsub]
        refine ih _ hnd.2 ?_
        intro r hr
        have hr' := List.of_mem_filter hr
        rcases List.mem_cons.mp (hcov r (List.mem_filter.mp hr).1) with he | he
        · simp [he] at hr'
        · exact he
      exact (hrest.append_left _).trans (List.filter_append_perm _ reqs)

theorem groupSimilar_flatten_perm (reqs : List OCRRequest) :
    (groupSimilarRequests reqs).flatten.Perm reqs := by
  rw [groupSimilarRequests]
  by_cases hf : (orderedKeys (reqs.map reqLevel)).flatMap (fun k =>
      runsBy (fun r => sizeCategory r.image_data.length)
        (List.insertionSort (fun a b => a.image_data.length ≤ b.image_data.length)
          (reqs.filter (fun r => reqLevel r = k)))) = []
  · rw [if_pos hf]
    simp
  · rw [if_neg hf, flatten_flatMap]
    rw [List.flatMap_congr (fun k _ => flatten_runsBy
      (fun r => sizeCategory r.image_data.length)
      (List.insertionSort (fun a b => a.image_data.length ≤ b.image_data.length)
        (reqs.filter (fun r => reqLevel r = k))))]
    refine (flatMap_perm_congr _ _ _
      (fun k _ => List.perm_insertionSort _ _)).trans ?_
    exact flatMap_filter_perm reqLevel _ reqs (orderedKeys_nodup _)
      (fun r hr => (mem_orderedKeys _ _).mpr (List.mem_map_of_mem reqLevel hr))

theorem optimizeSingleBatch_flatten_perm (cfg : BatchConfig) (b : PrioritizedBatch) :
    (((optimizeSingleBatch cfg b).map (·.requests)).flatten).Perm b.requests := by
  rw [optimizeSingleBatch]
  by_cases h : b.requests.length ≤ 2
  · rw [if_pos h]
    simp
  · rw [if_neg h, List.map_map]
    rw [show ((fun b : PrioritizedBatch => b.requests) ∘ fun p : Nat × List OCRRequest =>
        (⟨p.2, b.priority, (p.2.length : ℚ) * cfg.performance_target_ms,
          b.batch_id ++ "_optimized_" ++ String.mk (natRepr p.1)⟩ : PrioritizedBatch)) =
        Prod.snd from rfl]
    rw [List.enum_map_snd]
    exact groupSimilar_flatten_perm b.requests

theorem cpb_flatten_perm (cfg : BatchConfig) (reqs : List OCRRequest)
    (hp : ∀ r ∈ reqs, reqPriority r ∈ (["high", "normal", "low"] : List String))
    (hhs : cfg.high_priority_batch_size ≠ 0)
    (hns : cfg.normal_priority_batch_size ≠ 0) :
    (((createPrioritizedBatches cfg reqs).map (·.requests)).flatten).Perm reqs := by
  rw [createPrioritizedBatches]
  refine List.Perm.trans (List.Perm.flatten (List.Perm.map
    (fun b : PrioritizedBatch => b.requests) (List.perm_insertionSort _ _))) ?_
  simp only [List.map_append, List.flatten_append, List.map_map]
  rw [show ((fun b : PrioritizedBatch => b.requests) ∘ fun p : Nat × List OCRRequest =>
      (⟨p.2, "high", (p.2.length : ℚ) * cfg.performance_target_ms,
        "high_priority_" ++ String.mk (natRepr p.1)⟩ : PrioritizedBatch)) =
      Prod.snd from rfl]
  rw [show ((fun b : PrioritizedBatch => b.requests) ∘ fun p : Nat × List OCRRequest =>
      (⟨p.2, "normal", (p.2.length : ℚ) * cfg.performance_target_ms,
        "normal_priority_" ++ String.mk (natRepr p.1)⟩ : PrioritizedBatch)) =
      Prod.snd from rfl]
  rw [show ((fun b : PrioritizedBatch => b.requests) ∘ fun p : Nat × List OCRRequest =>
      (⟨p.2, "low", (p.2.length : ℚ) * cfg.performance_target_ms,
        "low_priority_" ++ String.mk (natRepr p.1)⟩ : PrioritizedBatch)) =
      Prod.snd from rfl]
  rw [List.enum_map_snd, List.enum_map_snd, List.enum_map_snd,
    flatten_chunkList _ _ hhs, flatten_chunkList _ _ hns,
    flatten_chunkList _ _ (show max cfg.normal_priority_batch_size 10 ≠ 0 by omega)]
  have h := flatMap_filter_perm reqPriority ["high", "normal", "low"] reqs
    (by simp) hp
  simp only [List.flatMap_cons, List.flatMap_nil, List.append_nil] at h
  rw [List.append_assoc]
  exact h

/-- C6 (amended): for every input whose requests all declare one of the
three recognized priorities (an absent priority counts as `normal`), and
positive configured batch sizes (as the optimizer maintains), the request
lists returned by `optimize_batch` concatenate to a permutation of the
input — every request lands in exactly one batch, none dropped or
duplicated. A request with any other declared priority string matches none
of the three partitions and is dropped (see the counterexample). -/
theorem optimize_batch_partition (cfg : BatchConfig) (reqs : List OCRRequest)
    (hp : ∀ r ∈ reqs, reqPriority r ∈ (["high", "normal", "low"] : List String))
    (hhs : cfg.high_priority_batch_size ≠ 0)
    (hns : cfg.normal_priority_batch_size ≠ 0) :
    ((optimizeBatch cfg reqs).flatten).Perm reqs := by
  rw [optimizeBatch]
  by_cases h0 : reqs = []
  · rw [if_pos h0, h0]
    rfl
  · rw [if_neg h0, List.map_flatMap, flatten_flatMap]
    refine (flatMap_perm_congr _ _ _
      (fun b _ => optimizeSingleBatch_flatten_perm cfg b)).trans ?_
    exact cpb_flatten_perm cfg reqs hp hhs hns

/-- Counterexample to C6 as stated: a request declaring priority
`"urgent"` matches none of the three priority partitions, so the optimizer
returns no batches at all for a nonempty input — the request is dropped. -/
theorem optimize_batch_drops_unknown_priority :
    optimizeBatch ⟨2, 5, 8, 7 / 10, 5⟩
      [⟨some "urgent", "", none, none⟩] = [] := rfl

/-- Witness for C6: a high, a default-normal and a low request are
returned exactly once each across the optimized batches. -/
theorem optimize_batch_partition_witness :
    ((optimizeBatch ⟨2, 5, 8, 7 / 10, 5⟩
      [⟨some "high", "", none, none⟩, ⟨none, "a", none, none⟩,
       ⟨some "low", "b", none, none⟩]).flatten).Perm
      [⟨some "high", "", none, none⟩, ⟨none, "a", none, none⟩,
       ⟨some "low", "b", none, none⟩] :=
  optimize_batch_partition ⟨2, 5, 8, 7 / 10, 5⟩ _
    (by decide) (by decide) (by decide)

/-! ### C7: the three-request scenario and the priority order of batches -/

/-- C7: with batch sizes `{high: 2, normal: 2}`, the requests
`high, normal, normal` become exactly two batches — the single high
request first, then the two normal ones — and in general the batches
`_create_prioritized_batches` returns are sorted high, normal, low. -/
theorem batch_scenario_high_normal_and_sorted :
    (createPrioritizedBatches ⟨2, 2, 8, 7 / 10, 5⟩
      [⟨some "high", "", none, none⟩, ⟨some "normal", "a", none, none⟩,
       ⟨none, "b", none, none⟩]).map (fun b => (b.requests, b.priority)) =
      [([⟨some "high", "", none, none⟩], "high"),
       ([⟨some "normal", "a", none, none⟩, ⟨none, "b", none, none⟩], "normal")] ∧
    optimizeBatch ⟨2, 2, 8, 7 / 10, 5⟩
      [⟨some "high", "", none, none⟩, ⟨some "normal", "a", none, none⟩,
       ⟨none, "b", none, none⟩] =
      [[⟨some "high", "", none, none⟩],
       [⟨some "normal", "a", none, none⟩, ⟨none, "b", none, none⟩]] ∧
    ∀ (cfg : BatchConfig) (reqs : List OCRRequest),
      (createPrioritizedBatches cfg reqs).Pairwise
        (fun a b => priorityOrder a.priority ≤ priorityOrder b.priority) := by
  refine ⟨rfl, rfl, ?_⟩
  intro cfg reqs
  rw [createPrioritizedBatches]
  haveI : IsTotal PrioritizedBatch
      (fun a b => priorityOrder a.priority ≤ priorityOrder b.priority) :=
    ⟨fun a b => Nat.le_total _ _⟩
  haveI : IsTrans PrioritizedBatch
      (fun a b => priorityOrder a.priority ≤ priorityOrder b.priority) :=
    ⟨fun _ _ _ => Nat.le_trans⟩
  exact List.sorted_insertionSort _ _

/-! ### C8: adaptive sizing is bounded, and monotone at low load -/

/-- C8 (amended): for a starting configuration within the configured
bounds (`high ∈ [1,10]`, `normal ∈ [2,20]`) — as the optimizer's own
constructor and adjustments maintain — an adjustment at system load below
the 30 % low-load threshold never decreases `normal_priority_batch_size`,
and after any sequence of adjustments (in particular one whose load falls
from 90 % to 20 %) both sizes stay within their configured bounds. For a
start outside those bounds the monotonicity fails (see the
counterexample). -/
theorem adapt_batch_sizes_bounds_and_monotone (cfg : BatchConfig)
    (hh1 : 1 ≤ cfg.high_priority_batch_size)
    (hh2 : cfg.high_priority_batch_size ≤ 10)
    (hn1 : 2 ≤ cfg.normal_priority_batch_size)
    (hn2 : cfg.normal_priority_batch_size ≤ 20) :
    (∀ load : ℚ, load < 30 →
      cfg.normal_priority_batch_size ≤
        (adaptBatchSizes cfg load).normal_priority_batch_size) ∧
    (∀ loads : List ℚ,
      1 ≤ (loads.foldl adaptBatchSizes cfg).high_priority_batch_size ∧
      (loads.foldl adaptBatchSizes cfg).high_priority_batch_size ≤ 10 ∧
      2 ≤ (loads.foldl adaptBatchSizes cfg).normal_priority_batch_size ∧
      (loads.foldl adaptBatchSizes cfg).normal_priority_batch_size ≤ 20) := by
  have hstep : ∀ (c : BatchConfig) (load : ℚ),
      1 ≤ c.high_priority_batch_size → c.high_priority_batch_size ≤ 10 →
      2 ≤ c.normal_priority_batch_size → c.normal_priority_batch_size ≤ 20 →
      1 ≤ (adaptBatchSizes c load).high_priority_batch_size ∧
      (adaptBatchSizes c load).high_priority_batch_size ≤ 10 ∧
      2 ≤ (adaptBatchSizes c load).normal_priority_batch_size ∧
      (adaptBatchSizes c load).normal_priority_batch_size ≤ 20 := by
    intro c load h1 h2 h3 h4
    rw [adaptBatchSizes]
    split
    · refine ⟨?_, ?_, ?_, ?_⟩ <;> simp
    · split
      · refine ⟨?_, ?_, ?_, ?_⟩ <;> simp <;> omega
      · exact ⟨h1, h2, h3, h4⟩
  constructor
  · intro load hl
    rw [adaptBatchSizes, if_pos hl]
    simp
    omega
  · intro loads
    induction loads generalizing cfg with
    | nil => exact ⟨hh1, hh2, hn1, hn2⟩
    | cons l t ih =>
        rw [List.foldl_cons]
        obtain ⟨a, b, c, d⟩ := hstep cfg l hh1 hh2 hn1 hn2
        exact ih _ a b c d

/-- Counterexample to C8 as stated: starting from the constructor-reachable
configuration `initial_size = 50` (high 25, normal 50), the load sequence
90 → 25 → … *decreases* `normal_priority_batch_size` from 48 to 20 at a
call whose load is below the low-load threshold, because the clamp to the
maximum of 20 undercuts the out-of-range running value. -/
theorem adapt_batch_sizes_decrease_counterexample :
    (adaptBatchSizes (adaptBatchSizes ⟨25, 50, 8, 7 / 10, 5⟩ 90)
        25).normal_priority_batch_size <
      (adaptBatchSizes ⟨25, 50, 8, 7 / 10, 5⟩ 90).normal_priority_batch_size := by
  have h1 : adaptBatchSizes ⟨25, 50, 8, 7 / 10, 5⟩ 90 =
      ⟨24, 48, 7, 7 / 10, 5⟩ := by
    rw [adaptBatchSizes, if_neg (by norm_num), if_pos (by norm_num)]
    rfl
  have h2 : adaptBatchSizes ⟨24, 48, 7, 7 / 10, 5⟩ 25 =
      ⟨10, 20, 8, 7 / 10, 5⟩ := by
    rw [adaptBatchSizes, if_pos (by norm_num)]
    rfl
  rw [h1, h2]
  decide

/-- Witness for C8: from the default-style configuration
`high 2, normal 5`, a low-load call does not decrease the normal size, and
the 90 → 20 sequence ends within all bounds. -/
theorem adapt_batch_sizes_bounds_and_monotone_witness :
    ((⟨2, 5, 8, 7 / 10, 5⟩ : BatchConfig).normal_priority_batch_size ≤
      (adaptBatchSizes ⟨2, 5, 8, 7 / 10, 5⟩ 20).normal_priority_batch_size) ∧
    1 ≤ (([90, 20] : List ℚ).foldl adaptBatchSizes
      ⟨2, 5, 8, 7 / 10, 5⟩).high_priority_batch_size ∧
    (([90, 20] : List ℚ).foldl adaptBatchSizes
      ⟨2, 5, 8, 7 / 10, 5⟩).high_priority_batch_size ≤ 10 ∧
    2 ≤ (([90, 20] : List ℚ).foldl adaptBatchSizes
      ⟨2, 5, 8, 7 / 10, 5⟩).normal_priority_batch_size ∧
    (([90, 20] : List ℚ).foldl adaptBatchSizes
      ⟨2, 5, 8, 7 / 10, 5⟩).normal_priority_batch_size ≤ 20 := by
  have h := adapt_batch_sizes_bounds_and_monotone ⟨2, 5, 8, 7 / 10, 5⟩
    (by decide) (by decide) (by decide) (by decide)
  exact ⟨h.1 20 (by norm_num), (h.2 [90, 20]).1, (h.2 [90, 20]).2.1,
    (h.2 [90, 20]).2.2.1, (h.2 [90, 20]).2.2.2⟩

/-! ## The ANE resource monitor (`ane_resource_monitor.py`): throttling -/

structure ResourceAllocation where
  max_concurrent_requests : Nat
  batch_size_recommendation : Nat
  priority_queue_size : Nat
  memory_limit_mb : Nat
  throttle_threshold : ℚ
deriving DecidableEq

/-- A utilization reading as `should_throttle` consumes it, each field
read with `.get(key, 0)`. -/
structure UtilizationReading where
  ane_usage : ℚ
  ane_temperature : ℚ
  queue_depth : ℚ
deriving DecidableEq

/-- `should_throttle`: `False` with adaptive throttling off; otherwise
`any` of usage above the configured threshold, temperature above 80, or
queue depth above 80 % of the configured queue capacity. -/
def shouldThrottle (adaptiveThrottling : Bool) (u : UtilizationReading)
    (alloc : ResourceAllocation) : Bool :=
  if ¬adaptiveThrottling then false
  else
    decide (u.ane_usage > alloc.throttle_threshold) ||
    decide (u.ane_temperature > 80) ||
    decide (u.queue_depth > (alloc.priority_queue_size : ℚ) * (8 / 10))

/-- C9: with adaptive throttling on, `should_throttle` is true exactly
when usage exceeds the configured threshold, or temperature exceeds 80, or
queue depth exceeds 80 % of the queue capacity; in particular it fires at
usage 0.90 with nominal temperature and queue (default threshold 0.85,
capacity 50) and stays off at usage 0.5, temperature 70, queue at 10 % of
capacity. -/
theorem should_throttle_characterization :
    (∀ (u : UtilizationReading) (alloc : ResourceAllocation),
      shouldThrottle true u alloc = true ↔
        (u.ane_usage > alloc.throttle_threshold ∨ u.ane_temperature > 80 ∨
         u.queue_depth > (alloc.priority_queue_size : ℚ) * (8 / 10))) ∧
    shouldThrottle true ⟨9 / 10, 0, 0⟩ ⟨10, 5, 50, 2048, 85 / 100⟩ = true ∧
    shouldThrottle true ⟨5 / 10, 70, 5⟩ ⟨10, 5, 50, 2048, 85 / 100⟩ = false := by
  refine ⟨fun u alloc => ?_, ?_, ?_⟩
  · simp [shouldThrottle]
    tauto
  · simp only [shouldThrottle, not_true_eq_false, if_false, Bool.or_eq_true,
      decide_eq_true_eq]
    norm_num
  · simp only [shouldThrottle, not_true_eq_false, if_false, Bool.or_eq_true,
      decide_eq_true_eq]
    norm_num

/-! ## The cache predictor (`cache_predictor.py`): ensemble merging

`predict_cache_access` is modelled over the collected per-model prediction
list (the three bundled models are stubs returning empty lists; the claim
is about the combination pipeline, which takes any such collection). -/

structure CachePrediction where
  cache_key : String
  probability : ℚ
  confidence : ℚ
  predicted_access_time : ℚ
  reasoning : String
  data_characteristics : String
deriving DecidableEq

/-- The predictions grouped under one cache key (`defaultdict` bucket,
which Python fills in input order). -/
def groupFor (preds : List CachePrediction) (k : String) : List CachePrediction :=
  preds.filter (fun p => p.cache_key = k)

/-- `min(p.predicted_access_time for p in group)` on a nonempty group. -/
def minAccessTime (p : CachePrediction) (rest : List CachePrediction) : ℚ :=
  rest.foldl (fun m q => min m q.predicted_access_time) p.predicted_access_time

/-- One merged entry for a key: a lone prediction passes through, two or
more are combined — confidence-weighted probability, averaged confidence,
earliest predicted access. The `[]` case is unreachable for keys drawn
from the predictions. -/
def mergeGroup (k : String) (g : List CachePrediction) : CachePrediction :=
  match g with
  | [] => ⟨k, 0, 0, 0, "", ""⟩
  | [p] => p
  | p :: rest =>
      { cache_key := k,
        probability := (g.map (fun q => q.probability * q.confidence)).sum /
          (g.map (·.confidence)).sum,
        confidence := (g.map (·.confidence)).sum / (g.length : ℚ),
        predicted_access_time := minAccessTime p rest,
        reasoning := "Ensemble of " ++ String.mk (natRepr g.length) ++ " models",
        data_characteristics := p.data_characteristics }

/-- `_combine_predictions`: merge per key in first-occurrence order. A
`ZeroDivisionError` in any multi-prediction group with zero total
confidence lands in the `except`, which returns the input unmerged. -/
def combinePredictions (preds : List CachePrediction) : List CachePrediction :=
  let keys := orderedKeys (preds.map (·.cache_key))
  if keys.any (fun k => decide (2 ≤ (groupFor preds k).length) &&
      decide (((groupFor preds k).map (·.confidence)).sum = 0)) then preds
  else keys.map (fun k => mergeGroup k (groupFor preds k))

/-- `predict_cache_access` past the model calls: combine, keep
probabilities at or above the threshold, stable-sort descending by
probability, return at most the top ten. -/
def predictCacheAccess (threshold : ℚ) (preds : List CachePrediction) :
    List CachePrediction :=
  (List.insertionSort (fun a b => b.probability ≤ a.probability)
    ((combinePredictions preds).filter
      (fun p => threshold ≤ p.probability))).take 10

/-! ### C10: merging, filtering, ordering and truncation of predictions -/

theorem groupFor_ne_nil (preds : List CachePrediction) (k : String)
    (hk : k ∈ orderedKeys (preds.map (·.cache_key))) :
    groupFor preds k ≠ [] := by
  rw [mem_orderedKeys] at hk
  obtain ⟨p, hp, rfl⟩ := List.mem_map.mp hk
  intro he
  have hmem : p ∈ groupFor preds p.cache_key :=
    List.mem_filter.mpr ⟨hp, by simp⟩
  rw [he] at hmem
  cases hmem

theorem key_mergeGroup (preds : List CachePrediction) (k : String)
    (hk : k ∈ orderedKeys (preds.map (·.cache_key))) :
    (mergeGroup k (groupFor preds k)).cache_key = k := by
  rcases hg : groupFor preds k with _ | ⟨p, rest⟩
  · exact absurd hg (groupFor_ne_nil preds k hk)
  · cases rest with
    | nil =>
        have hp : p ∈ groupFor preds k := by
          rw [hg]
          exact List.mem_cons_self p []
        have := List.of_mem_filter hp
        simp only [decide_eq_true_eq] at this
        simp [mergeGroup, this]
    | cons p2 t => simp [mergeGroup]

theorem combinePredictions_eq_map (preds : List CachePrediction)
    (hconf : ∀ p ∈ preds, 0 < p.confidence) :
    combinePredictions preds =
      (orderedKeys (preds.map (·.cache_key))).map
        (fun k => mergeGroup k (groupFor preds k)) := by
  have hcheck : (orderedKeys (preds.map (·.cache_key))).any
      (fun k => decide (2 ≤ (groupFor preds k).length) &&
        decide (((groupFor preds k).map (·.confidence)).sum = 0)) = false := by
    rw [List.any_eq_false]
    intro k hk
    simp only [Bool.and_eq_true, decide_eq_true_eq, not_and]
    intro hlen
    have hpos : 0 < ((groupFor preds k).map (·.confidence)).sum := by
      apply List.sum_pos
      · intro x hx
        obtain ⟨p, hp, rfl⟩ := List.mem_map.mp hx
        exact hconf p (List.mem_of_mem_filter hp)
      · intro he
        rw [List.map_eq_nil_iff] at he
        rw [he] at hlen
        simp at hlen
    exact ne_of_gt hpos
  simp only [combinePredictions, hcheck, Bool.false_eq_true, if_false]

/-- C10 (amended): provided every collected prediction carries positive
confidence (without which a zero-confidence duplicate key aborts the merge
— see the counterexample), `_combine_predictions` produces exactly one
entry per distinct cache key, in first-occurrence order, whose probability
is the confidence-weighted average Σ(pᵢ·cᵢ)/Σ(cᵢ) over that key's
predictions; and `predict_cache_access` returns only entries with
probability at or above the threshold, sorted by descending probability,
at most ten of them. -/
theorem predict_merges_filters_sorts (threshold : ℚ)
    (preds : List CachePrediction)
    (hconf : ∀ p ∈ preds, 0 < p.confidence) :
    (predictCacheAccess threshold preds).length ≤ 10 ∧
    (∀ p ∈ predictCacheAccess threshold preds, threshold ≤ p.probability) ∧
    (predictCacheAccess threshold preds).Pairwise
      (fun a b => b.probability ≤ a.probability) ∧
    (combinePredictions preds).map (·.cache_key) =
      orderedKeys (preds.map (·.cache_key)) ∧
    (∀ q ∈ combinePredictions preds,
      q.probability =
        ((groupFor preds q.cache_key).map
          (fun p => p.probability * p.confidence)).sum /
        ((groupFor preds q.cache_key).map (·.confidence)).sum) := by
  have hcomb := combinePredictions_eq_map preds hconf
  haveI : IsTotal CachePrediction
      (fun a b => b.probability ≤ a.probability) :=
    ⟨fun a b => le_total b.probability a.probability⟩
  haveI : IsTrans CachePrediction
      (fun a b => b.probability ≤ a.probability) :=
    ⟨fun _ _ _ hab hbc => le_trans hbc hab⟩
  refine ⟨List.length_take_le _ _, ?_, ?_, ?_, ?_⟩
  · intro p hp
    have hp1 := List.mem_of_mem_take hp
    have hp2 := (List.perm_insertionSort _ _).mem_iff.mp hp1
    have := List.of_mem_filter hp2
    simpa using this
  · exact (List.sorted_insertionSort _ _).sublist (List.take_sublist _ _)
  · rw [hcomb, List.map_map]
    conv_rhs => rw [← List.map_id (orderedKeys (preds.map (·.cache_key)))]
    apply List.map_congr_left
    intro k hk
    exact key_mergeGroup preds k hk
  · intro q hq
    rw [hcomb] at hq
    obtain ⟨k, hk, rfl⟩ := List.mem_map.mp hq
    rw [key_mergeGroup preds k hk]
    rcases hg : groupFor preds k with _ | ⟨p, rest⟩
    · exact absurd hg (groupFor_ne_nil preds k hk)
    · cases rest with
      | nil =>
          have hp : p ∈ groupFor preds k := by
            rw [hg]
            exact List.mem_cons_self p []
          have hpc : 0 < p.confidence :=
            hconf p (List.mem_of_mem_filter hp)
          simp only [mergeGroup, List.map_cons, List.map_nil, List.sum_cons,
            List.sum_nil, add_zero]
          field_simp
      | cons p2 t => simp [mergeGroup]

/-- Counterexample to C10 as stated: two predictions for the same key with
zero confidence make the weighted average divide by zero; the `except`
returns the list unmerged, so the output carries two entries for one cache
key instead of one merged entry. -/
theorem combine_zero_confidence_counterexample :
    combinePredictions
      [⟨"k", 9 / 10, 0, 0, "frequency", "d"⟩,
       ⟨"k", 9 / 10, 0, 0, "temporal", "d"⟩] =
      [⟨"k", 9 / 10, 0, 0, "frequency", "d"⟩,
       ⟨"k", 9 / 10, 0, 0, "temporal", "d"⟩] := by
  rw [combinePredictions, if_pos]
  simp only [List.map_cons, List.map_nil, orderedKeys, List.foldl_cons,
    List.foldl_nil, List.any_eq_true]
  refine ⟨"k", by simp, ?_⟩
  simp only [groupFor, Bool.and_eq_true, decide_eq_true_eq]
  constructor
  · simp
  · simp only [List.filter_cons, decide_eq_true_eq]
    norm_num

/-- Witness for C10: three positive-confidence predictions over two keys
are merged into two entries with the confidence-weighted probabilities,
then filtered, ordered and truncated. -/
theorem predict_merges_filters_sorts_witness :
    (predictCacheAccess (8 / 10)
      [⟨"a", 9 / 10, 1 / 2, 3, "frequency", "d"⟩,
       ⟨"a", 7 / 10, 1 / 2, 5, "temporal", "d"⟩,
       ⟨"b", 1 / 2, 1, 7, "sequence", "d"⟩]).length ≤ 10 ∧
    (∀ p ∈ predictCacheAccess (8 / 10)
      [⟨"a", 9 / 10, 1 / 2, 3, "frequency", "d"⟩,
       ⟨"a", 7 / 10, 1 / 2, 5, "temporal", "d"⟩,
       ⟨"b", 1 / 2, 1, 7, "sequence", "d"⟩], (8 : ℚ) / 10 ≤ p.probability) ∧
    (predictCacheAccess (8 / 10)
      [⟨"a", 9 / 10, 1 / 2, 3, "frequency", "d"⟩,
       ⟨"a", 7 / 10, 1 / 2, 5, "temporal", "d"⟩,
       ⟨"b", 1 / 2, 1, 7, "sequence", "d"⟩]).Pairwise
      (fun a b => b.probability ≤ a.probability) ∧
    (combinePredictions
      [⟨"a", 9 / 10, 1 / 2, 3, "frequency", "d"⟩,
       ⟨"a", 7 / 10, 1 / 2, 5, "temporal", "d"⟩,
       ⟨"b", 1 / 2, 1, 7, "sequence", "d"⟩]).map (·.cache_key) =
      orderedKeys (([⟨"a", 9 / 10, 1 / 2, 3, "frequency", "d"⟩,
       ⟨"a", 7 / 10, 1 / 2, 5, "temporal", "d"⟩,
       ⟨"b", 1 / 2, 1, 7, "sequence", "d"⟩] : List CachePrediction).map
        (·.cache_key)) ∧
    (∀ q ∈ combinePredictions
      [⟨"a", 9 / 10, 1 / 2, 3, "frequency", "d"⟩,
       ⟨"a", 7 / 10, 1 / 2, 5, "temporal", "d"⟩,
       ⟨"b", 1 / 2, 1, 7, "sequence", "d"⟩],
      q.probability =
        ((groupFor [⟨"a", 9 / 10, 1 / 2, 3, "frequency", "d"⟩,
          ⟨"a", 7 / 10, 1 / 2, 5, "temporal", "d"⟩,
          ⟨"b", 1 / 2, 1, 7, "sequence", "d"⟩] q.cache_key).map
            (fun p => p.probability * p.confidence)).sum /
        ((groupFor [⟨"a", 9 / 10, 1 / 2, 3, "frequency", "d"⟩,
          ⟨"a", 7 / 10, 1 / 2, 5, "temporal", "d"⟩,
          ⟨"b", 1 / 2, 1, 7, "sequence", "d"⟩] q.cache_key).map
            (·.confidence)).sum) :=
  predict_merges_filters_sorts (8 / 10) _ (by
    intro p hp
    simp only [List.mem_cons, List.not_mem_nil, or_false] at hp
    rcases hp with rfl | rfl | rfl <;> norm_num)

end Bytebot
